import Mathlib

/-!
Verification development for the Smart-Energy-Switching core.

The embedding translates, over exact rational arithmetic:
  - `allocate_sources_for_step`, `Load`, `SwitchingController` from
    src/logic/switching.py;
  - `Battery`, the per-step energy-flow reconciliation and the nighttime
    reserve override from src/simulation/run_daily_sim_with_battery.py
    (the same override appears verbatim in run_grid_blackout.py).

Python dicts are modelled as chronological write logs (`List (String × α)`)
read through `dlook`, where the latest write for a key wins, which matches
dict assignment and lookup semantics for every write sequence.
-/

set_option linter.unusedVariables false

inductive Source where
  | SOLAR : Source
  | GRID : Source
deriving DecidableEq, Repr

structure Load where
  name : String
  power_kw : ℚ
  can_run_on_solar : Bool
  is_high_power : Bool
  high_event_threshold_kw : Option ℚ
deriving DecidableEq, Repr

/-- Lookup in a chronological write log: the latest write for `n` wins,
matching Python dict assignment followed by lookup. -/
def dlook {α : Type} : List (String × α) → String → Option α
  | [], _ => none
  | p :: ps, n =>
    match dlook ps n with
    | some v => some v
    | none => if p.1 = n then some p.2 else none

theorem dlook_nil {α : Type} (n : String) : dlook ([] : List (String × α)) n = none := rfl

theorem dlook_append {α : Type} (a b : List (String × α)) (n : String) :
    dlook (a ++ b) n =
      match dlook b n with
      | some v => some v
      | none => dlook a n := by
  induction a with
  | nil => cases h : dlook b n <;> simp [dlook, h]
  | cons p ps ih =>
    simp only [List.cons_append, dlook, List.append_eq]
    rw [ih]
    cases h : dlook b n <;> cases h2 : dlook ps n <;> simp [dlook, h2]

theorem dlook_append_single {α : Type} (m : List (String × α)) (k : String) (v : α)
    (n : String) :
    dlook (m ++ [(k, v)]) n = if k = n then some v else dlook m n := by
  rw [dlook_append]
  by_cases h : k = n <;> simp [dlook, h]

theorem dlook_eq_none_of_not_mem {α : Type} (m : List (String × α)) (n : String)
    (h : n ∉ m.map Prod.fst) : dlook m n = none := by
  induction m with
  | nil => rfl
  | cons p ps ih =>
    simp only [List.map_cons, List.mem_cons] at h
    push_neg at h
    simp only [dlook, ih h.2]
    rw [if_neg (fun hh => h.1 hh.symm)]

theorem dlook_isSome_of_mem {α : Type} (m : List (String × α)) (n : String)
    (h : n ∈ m.map Prod.fst) : (dlook m n).isSome := by
  induction m with
  | nil => simp at h
  | cons p ps ih =>
    simp only [List.map_cons, List.mem_cons] at h
    by_cases hp : n ∈ ps.map Prod.fst
    · have := ih hp
      simp only [dlook]
      cases h2 : dlook ps n with
      | some v => simp
      | none => rw [h2] at this; simp at this
    · have hn : p.1 = n := by tauto
      simp [dlook, dlook_eq_none_of_not_mem ps n hp, hn]

theorem dlook_of_nodup_mem {α : Type} (m : List (String × α)) (k : String) (v : α)
    (hnd : (m.map Prod.fst).Nodup) (hm : (k, v) ∈ m) : dlook m k = some v := by
  induction m with
  | nil => simp at hm
  | cons p ps ih =>
    simp only [List.map_cons, List.nodup_cons] at hnd
    rcases List.mem_cons.mp hm with h | h
    · subst h
      simp [dlook, dlook_eq_none_of_not_mem ps k hnd.1]
    · have : k ∈ ps.map Prod.fst := List.mem_map.mpr ⟨(k, v), h, rfl⟩
      simp only [dlook, ih hnd.2 h]

/-! ## Stateless allocator (src/logic/switching.py, allocate_sources_for_step) -/

/-- The folded predicate `l.is_high_power or (l.power_kw >= high_power_min_kw)`
shared by the sort key and the greedy allocation branch. -/
def effective_high_power (high_power_min_kw : ℚ) (l : Load) : Bool :=
  l.is_high_power || decide (high_power_min_kw ≤ l.power_kw)

/-- The sort key `(effective_high_power, power_kw)` of `priority_key`. -/
def priority_key (high_power_min_kw : ℚ) (l : Load) : Bool × ℚ :=
  (effective_high_power high_power_min_kw l, l.power_kw)

/-- Python tuple order on `(bool, float)` keys: False before True, then by power. -/
def keyLe (a b : Bool × ℚ) : Prop :=
  (a.1 = false ∧ b.1 = true) ∨ (a.1 = b.1 ∧ a.2 ≤ b.2)

instance (a b : Bool × ℚ) : Decidable (keyLe a b) := by
  unfold keyLe; infer_instance

/-- Load comparison used by Python's stable `sorted(..., key=priority_key)`. -/
def loadLe (high_power_min_kw : ℚ) (x y : Load) : Prop :=
  keyLe (priority_key high_power_min_kw x) (priority_key high_power_min_kw y)

instance (h : ℚ) : DecidableRel (loadLe h) := by
  intro x y; unfold loadLe; infer_instance

theorem keyLe_refl (a : Bool × ℚ) : keyLe a a := by
  unfold keyLe
  exact Or.inr ⟨rfl, le_refl _⟩

theorem keyLe_total (a b : Bool × ℚ) : keyLe a b ∨ keyLe b a := by
  rcases a with ⟨ab, aq⟩; rcases b with ⟨bb, bq⟩
  cases ab <;> cases bb <;> rcases le_total aq bq with h | h <;>
    simp [keyLe, h]

theorem keyLe_trans {a b c : Bool × ℚ} (h1 : keyLe a b) (h2 : keyLe b c) : keyLe a c := by
  rcases a with ⟨ab, aq⟩; rcases b with ⟨bb, bq⟩; rcases c with ⟨cb, cq⟩
  rcases h1 with ⟨h1a, h1b⟩ | ⟨h1a, h1b⟩ <;> rcases h2 with ⟨h2a, h2b⟩ | ⟨h2a, h2b⟩ <;>
    simp_all [keyLe] <;> exact le_trans h1b h2b

instance (h : ℚ) : IsTotal Load (loadLe h) := ⟨fun x y => keyLe_total _ _⟩

instance (h : ℚ) : IsTrans Load (loadLe h) := ⟨fun _ _ _ => keyLe_trans⟩

theorem key_ne_of_not_keyLe {a b : Bool × ℚ} (h : ¬ keyLe a b) : b ≠ a := by
  intro he
  apply h
  rw [he]
  exact keyLe_refl a

/-- The greedy walk of step 4 of the allocator, over the sorted solar-eligible
loads, threading `pv_remaining`. -/
def greedy_walk (high_power_solar_factor high_power_min_kw : ℚ) :
    ℚ → List Load → List (Load × Source)
  | _, [] => []
  | pv_remaining, l :: ls =>
    if pv_remaining ≤ 0 then
      (l, Source.GRID) :: greedy_walk high_power_solar_factor high_power_min_kw pv_remaining ls
    else if effective_high_power high_power_min_kw l then
      if l.power_kw ≤ pv_remaining * high_power_solar_factor then
        (l, Source.SOLAR) ::
          greedy_walk high_power_solar_factor high_power_min_kw (pv_remaining - l.power_kw) ls
      else
        (l, Source.GRID) :: greedy_walk high_power_solar_factor high_power_min_kw pv_remaining ls
    else if l.power_kw ≤ pv_remaining then
      (l, Source.SOLAR) ::
        greedy_walk high_power_solar_factor high_power_min_kw (pv_remaining - l.power_kw) ls
    else
      (l, Source.GRID) :: greedy_walk high_power_solar_factor high_power_min_kw pv_remaining ls

/-- The stateless allocator: the returned write log produces, under `dlook`,
exactly the Python dict `allocation`. -/
def allocate_sources_for_step (pv_power_kw : ℚ) (loads : List Load)
    (solar_margin high_power_solar_factor high_power_min_kw : ℚ) :
    List (String × Source) :=
  if pv_power_kw ≤ 0 then loads.map (fun l => (l.name, Source.GRID))
  else
    let pv_remaining := max (pv_power_kw * (1 - solar_margin)) 0
    let solar_eligible := loads.filter (fun l => l.can_run_on_solar)
    let solar_eligible_sorted := List.insertionSort (loadLe high_power_min_kw) solar_eligible
    ((loads.filter (fun l => !l.can_run_on_solar)).map (fun l => (l.name, Source.GRID))) ++
      (greedy_walk high_power_solar_factor high_power_min_kw pv_remaining
          solar_eligible_sorted).map (fun p => (p.1.name, p.2))

/-! ## Battery model (src/simulation/run_daily_sim_with_battery.py) -/

structure Battery where
  capacity_kwh : ℚ
  soc_kwh : ℚ
  max_charge_kw : ℚ
  max_discharge_kw : ℚ
  eff_charge : ℚ
  eff_discharge : ℚ
deriving DecidableEq, Repr

/-- `Battery.__init__`: no validation; the initial state of charge is clamped
into `[0, capacity_kwh]` by `min(max(soc_initial_kwh, 0.0), capacity_kwh)`. -/
def mkBattery (capacity_kwh soc_initial_kwh max_charge_kw max_discharge_kw
    eff_charge eff_discharge : ℚ) : Battery :=
  ⟨capacity_kwh, min (max soc_initial_kwh 0) capacity_kwh,
    max_charge_kw, max_discharge_kw, eff_charge, eff_discharge⟩

def Battery.soc_ratio (b : Battery) : ℚ :=
  if 0 < b.capacity_kwh then b.soc_kwh / b.capacity_kwh else 0

/-- `Battery.charge`: returns the actual charging power and the updated battery. -/
def Battery.charge (b : Battery) (available_kw dt_hours : ℚ) : ℚ × Battery :=
  if available_kw ≤ 0 ∨ b.capacity_kwh ≤ 0 then (0, b)
  else
    let power := min available_kw b.max_charge_kw
    let energy_in_kwh := power * dt_hours * b.eff_charge
    let room_kwh := b.capacity_kwh - b.soc_kwh
    if room_kwh < energy_in_kwh then
      (room_kwh / (dt_hours * b.eff_charge), { b with soc_kwh := b.soc_kwh + room_kwh })
    else
      (power, { b with soc_kwh := b.soc_kwh + energy_in_kwh })

/-- `Battery.discharge`: returns the actual discharging power and the updated
battery. When the request exceeds storage, Python sets `energy_out_kwh = soc`
and then `soc -= energy_out_kwh`, leaving `soc - soc`. -/
def Battery.discharge (b : Battery) (required_kw dt_hours : ℚ) : ℚ × Battery :=
  if required_kw ≤ 0 ∨ b.capacity_kwh ≤ 0 then (0, b)
  else
    let power := min required_kw b.max_discharge_kw
    let energy_out_kwh := power * dt_hours / b.eff_discharge
    if b.soc_kwh < energy_out_kwh then
      (b.soc_kwh * b.eff_discharge / dt_hours, { b with soc_kwh := b.soc_kwh - b.soc_kwh })
    else
      (power, { b with soc_kwh := b.soc_kwh - energy_out_kwh })

/-- C1: for every Battery with positive capacity, efficiencies in (0,1],
non-negative power limits and `0 ≤ soc_kwh ≤ capacity_kwh`, a single call to
`charge` or `discharge` with positive `dt_hours` leaves
`0 ≤ soc_kwh ≤ capacity_kwh`; the bound is established by the operations
themselves, with no external clamping. -/
theorem battery_soc_invariant (b : Battery)
    (hcap : 0 < b.capacity_kwh)
    (hec0 : 0 < b.eff_charge) (hec1 : b.eff_charge ≤ 1)
    (hed0 : 0 < b.eff_discharge) (hed1 : b.eff_discharge ≤ 1)
    (hmc : 0 ≤ b.max_charge_kw) (hmd : 0 ≤ b.max_discharge_kw)
    (hs0 : 0 ≤ b.soc_kwh) (hs1 : b.soc_kwh ≤ b.capacity_kwh)
    (available_kw required_kw dt_hours : ℚ) (hdt : 0 < dt_hours) :
    (0 ≤ (b.charge available_kw dt_hours).2.soc_kwh ∧
      (b.charge available_kw dt_hours).2.soc_kwh ≤ (b.charge available_kw dt_hours).2.capacity_kwh) ∧
    (0 ≤ (b.discharge required_kw dt_hours).2.soc_kwh ∧
      (b.discharge required_kw dt_hours).2.soc_kwh ≤ (b.discharge required_kw dt_hours).2.capacity_kwh) := by
  constructor
  · by_cases h0 : available_kw ≤ 0 ∨ b.capacity_kwh ≤ 0
    · simp [Battery.charge, h0, hs0, hs1]
    · unfold Battery.charge
      rw [if_neg h0]
      push_neg at h0
      have hpow : 0 ≤ min available_kw b.max_charge_kw := le_min (le_of_lt h0.1) hmc
      have henergy : 0 ≤ min available_kw b.max_charge_kw * dt_hours * b.eff_charge :=
        mul_nonneg (mul_nonneg hpow (le_of_lt hdt)) (le_of_lt hec0)
      by_cases hroom : b.capacity_kwh - b.soc_kwh <
          min available_kw b.max_charge_kw * dt_hours * b.eff_charge
      · rw [if_pos hroom]
        dsimp only
        constructor
        · linarith
        · linarith
      · rw [if_neg hroom]
        push_neg at hroom
        dsimp only
        constructor
        · linarith
        · linarith
  · by_cases h0 : required_kw ≤ 0 ∨ b.capacity_kwh ≤ 0
    · simp [Battery.discharge, h0, hs0, hs1]
    · unfold Battery.discharge
      rw [if_neg h0]
      push_neg at h0
      have hpow : 0 ≤ min required_kw b.max_discharge_kw := le_min (le_of_lt h0.1) hmd
      have henergy : 0 ≤ min required_kw b.max_discharge_kw * dt_hours / b.eff_discharge :=
        div_nonneg (mul_nonneg hpow (le_of_lt hdt)) (le_of_lt hed0)
      by_cases hsoc : b.soc_kwh < min required_kw b.max_discharge_kw * dt_hours / b.eff_discharge
      · rw [if_pos hsoc]
        dsimp only
        constructor
        · linarith
        · linarith
      · rw [if_neg hsoc]
        push_neg at hsoc
        dsimp only
        constructor
        · linarith
        · linarith

/-- Witness for C1 at the spec's own example: a 2 kWh battery at 1 kWh,
discharge request 1 kW for one minute. -/
theorem battery_soc_invariant_witness :
    (0 : ℚ) < 2 ∧
    (0 ≤ ((mkBattery 2 1 (8/10) (8/10) (95/100) (95/100)).discharge 1 (1/60)).2.soc_kwh ∧
      ((mkBattery 2 1 (8/10) (8/10) (95/100) (95/100)).discharge 1 (1/60)).2.soc_kwh ≤
        ((mkBattery 2 1 (8/10) (8/10) (95/100) (95/100)).discharge 1 (1/60)).2.capacity_kwh) := by
  refine ⟨by norm_num, ?_⟩
  have h := battery_soc_invariant (mkBattery 2 1 (8/10) (8/10) (95/100) (95/100))
    (by norm_num [mkBattery]) (by norm_num [mkBattery]) (by norm_num [mkBattery])
    (by norm_num [mkBattery]) (by norm_num [mkBattery]) (by norm_num [mkBattery])
    (by norm_num [mkBattery]) (by norm_num [mkBattery]) (by norm_num [mkBattery])
    1 1 (1/60) (by norm_num)
  exact h.2

/-! ## Order, stability and budget lemmas for the allocator -/

theorem greedy_walk_map_fst (f h : ℚ) :
    ∀ (rem : ℚ) (ls : List Load), (greedy_walk f h rem ls).map Prod.fst = ls := by
  intro rem ls
  induction ls generalizing rem with
  | nil => rfl
  | cons l ls ih =>
    unfold greedy_walk
    by_cases h1 : rem ≤ 0
    · simp [h1, ih]
    · by_cases h2 : effective_high_power h l
      · by_cases h3 : l.power_kw ≤ rem * f
        · simp [h1, h2, h3, ih]
        · simp [h1, h2, h3, ih]
      · by_cases h3 : l.power_kw ≤ rem
        · simp [h1, h2, h3, ih]
        · simp [h1, h2, h3, ih]

/-- Modelled from the spec claim wording for the greedy walk: starting from
`remaining = max(available_kw * (1 - margin), 0)`, a load gets GRID when
`remaining <= 0`; a load with `effective_high_power` true gets SOLAR exactly
when `power_kw <= remaining * high_power_factor`, else GRID; one with it false
gets SOLAR exactly when `power_kw <= remaining`; each SOLAR assignment
decrements `remaining` by that load's `power_kw`. -/
def spec_greedy_walk (high_power_factor high_power_min_kw : ℚ) :
    ℚ → List Load → List (String × Source)
  | _, [] => []
  | remaining, l :: ls =>
    if remaining ≤ 0 then
      (l.name, Source.GRID) :: spec_greedy_walk high_power_factor high_power_min_kw remaining ls
    else if effective_high_power high_power_min_kw l then
      if l.power_kw ≤ remaining * high_power_factor then
        (l.name, Source.SOLAR) ::
          spec_greedy_walk high_power_factor high_power_min_kw (remaining - l.power_kw) ls
      else
        (l.name, Source.GRID) :: spec_greedy_walk high_power_factor high_power_min_kw remaining ls
    else if l.power_kw ≤ remaining then
      (l.name, Source.SOLAR) ::
        spec_greedy_walk high_power_factor high_power_min_kw (remaining - l.power_kw) ls
    else
      (l.name, Source.GRID) :: spec_greedy_walk high_power_factor high_power_min_kw remaining ls

theorem greedy_walk_eq_spec (f h : ℚ) :
    ∀ (rem : ℚ) (ls : List Load),
      (greedy_walk f h rem ls).map (fun p => (p.1.name, p.2)) = spec_greedy_walk f h rem ls := by
  intro rem ls
  induction ls generalizing rem with
  | nil => rfl
  | cons l ls ih =>
    unfold greedy_walk spec_greedy_walk
    by_cases h1 : rem ≤ 0
    · simp [h1, ih]
    · by_cases h2 : effective_high_power h l
      · by_cases h3 : l.power_kw ≤ rem * f
        · simp [h1, h2, h3, ih]
        · simp [h1, h2, h3, ih]
      · by_cases h3 : l.power_kw ≤ rem
        · simp [h1, h2, h3, ih]
        · simp [h1, h2, h3, ih]

theorem filter_key_orderedInsert (h : ℚ) (k : Bool × ℚ) (x : Load) (l : List Load) :
    (List.orderedInsert (loadLe h) x l).filter (fun y => priority_key h y == k) =
      if priority_key h x == k then
        x :: l.filter (fun y => priority_key h y == k)
      else l.filter (fun y => priority_key h y == k) := by
  induction l with
  | nil =>
    by_cases hx : priority_key h x == k <;> simp [List.orderedInsert, List.filter, hx]
  | cons b bl ih =>
    simp only [List.orderedInsert]
    by_cases hle : loadLe h x b
    · rw [if_pos hle]
      by_cases hx : priority_key h x == k <;> simp [List.filter, hx]
    · have hb_ne : priority_key h b ≠ priority_key h x := key_ne_of_not_keyLe hle
      rw [if_neg hle]
      by_cases hx : priority_key h x == k
      · have hxk : priority_key h x = k := by simpa using hx
        have hbk : ¬ (priority_key h b == k) = true := by
          simp only [beq_iff_eq]
          rw [hxk] at hb_ne
          exact hb_ne
        rw [if_pos hx]
        simp only [List.filter_cons]
        rw [if_neg hbk, if_neg hbk]
        rw [ih, if_pos hx]
      · rw [if_neg hx]
        simp only [List.filter_cons]
        by_cases hbk : (priority_key h b == k) = true
        · rw [if_pos hbk, if_pos hbk, ih, if_neg hx]
        · rw [if_neg hbk, if_neg hbk, ih, if_neg hx]

theorem insertionSort_filter_key (h : ℚ) (k : Bool × ℚ) (l : List Load) :
    (List.insertionSort (loadLe h) l).filter (fun y => priority_key h y == k) =
      l.filter (fun y => priority_key h y == k) := by
  induction l with
  | nil => rfl
  | cons x xs ih =>
    simp only [List.insertionSort]
    rw [filter_key_orderedInsert, ih]
    by_cases hx : priority_key h x == k <;> simp [List.filter_cons, hx]

theorem greedy_walk_solar_sum_le (f h : ℚ) (hf1 : f ≤ 1) :
    ∀ (ls : List Load) (rem : ℚ), 0 ≤ rem →
      (((greedy_walk f h rem ls).filter (fun p => p.2 == Source.SOLAR)).map
          (fun p => p.1.power_kw)).sum ≤ rem := by
  intro ls
  induction ls with
  | nil => intro rem h0; simpa [greedy_walk] using h0
  | cons l ls ih =>
    intro rem h0
    unfold greedy_walk
    by_cases h1 : rem ≤ 0
    · simpa [h1, List.filter_cons] using ih rem h0
    · push_neg at h1
      by_cases h2 : effective_high_power h l
      · by_cases h3 : l.power_kw ≤ rem * f
        · have hlf : l.power_kw ≤ rem := le_trans h3 (mul_le_of_le_one_right h0 hf1)
          have hrest := ih (rem - l.power_kw) (by linarith)
          simp only [if_neg (not_le.mpr h1), if_pos h2, if_pos h3, List.filter_cons]
          simp only [beq_self_eq_true, if_pos]
          simp only [List.map_cons, List.sum_cons]
          linarith
        · have hrest := ih rem h0
          simp only [if_neg (not_le.mpr h1), if_pos h2, if_neg h3, List.filter_cons]
          simpa using hrest
      · by_cases h3 : l.power_kw ≤ rem
        · have hrest := ih (rem - l.power_kw) (by linarith)
          simp only [if_neg (not_le.mpr h1), if_neg h2, if_pos h3, List.filter_cons]
          simp only [beq_self_eq_true, if_pos]
          simp only [List.map_cons, List.sum_cons]
          linarith
        · have hrest := ih rem h0
          simp only [if_neg (not_le.mpr h1), if_neg h2, if_neg h3, List.filter_cons]
          simpa using hrest

/-- C2: with positive available power, the solar-eligible loads are ordered
ascending by `(effective_high_power, power_kw)` (false before true), the
ordering is a stable permutation (equal keys keep input order), and the
allocator's output is exactly the grid-only GRID writes followed by the greedy
walk described by the spec, starting from `max(available_kw * (1 - margin), 0)`. -/
theorem allocator_order_and_greedy_walk (pv : ℚ) (loads : List Load)
    (solar_margin high_power_factor high_power_min_kw : ℚ) (hpv : 0 < pv) :
    List.Perm
      (List.insertionSort (loadLe high_power_min_kw) (loads.filter fun l => l.can_run_on_solar))
      (loads.filter fun l => l.can_run_on_solar) ∧
    List.Sorted (loadLe high_power_min_kw)
      (List.insertionSort (loadLe high_power_min_kw) (loads.filter fun l => l.can_run_on_solar)) ∧
    (∀ k : Bool × ℚ,
      (List.insertionSort (loadLe high_power_min_kw)
          (loads.filter fun l => l.can_run_on_solar)).filter
          (fun y => priority_key high_power_min_kw y == k) =
        (loads.filter fun l => l.can_run_on_solar).filter
          (fun y => priority_key high_power_min_kw y == k)) ∧
    allocate_sources_for_step pv loads solar_margin high_power_factor high_power_min_kw =
      ((loads.filter fun l => !l.can_run_on_solar).map fun l => (l.name, Source.GRID)) ++
        spec_greedy_walk high_power_factor high_power_min_kw (max (pv * (1 - solar_margin)) 0)
          (List.insertionSort (loadLe high_power_min_kw)
            (loads.filter fun l => l.can_run_on_solar)) := by
  refine ⟨List.perm_insertionSort _ _, List.sorted_insertionSort _ _,
    fun k => insertionSort_filter_key _ _ _, ?_⟩
  unfold allocate_sources_for_step
  rw [if_neg (not_le.mpr hpv)]
  simp only [greedy_walk_eq_spec]

theorem dlook_cons_of_isSome {α : Type} (p : String × α) (ps : List (String × α))
    (n : String) (h : (dlook ps n).isSome) : dlook (p :: ps) n = dlook ps n := by
  simp only [dlook]
  cases h2 : dlook ps n with
  | some v => rfl
  | none => rw [h2] at h; simp at h

theorem dlook_map_const (xs : List Load) (c : Source) (n : String) :
    dlook (xs.map fun l => (l.name, c)) n =
      if n ∈ xs.map Load.name then some c else none := by
  induction xs with
  | nil => simp [dlook]
  | cons x xs ih =>
    simp only [List.map_cons, dlook, ih]
    by_cases hm : n ∈ xs.map Load.name
    · simp [hm]
    · by_cases hx : x.name = n
      · simp [hm, hx]
      · have hx2 : ¬ n = x.name := fun hh => hx hh.symm
        simp [hm, hx, hx2]

theorem filter_dlook_walked (w : List (Load × Source))
    (hnd : (w.map (fun p => p.1.name)).Nodup) :
    (w.map Prod.fst).filter
        (fun l => dlook (w.map fun p => (p.1.name, p.2)) l.name == some Source.SOLAR) =
      (w.filter (fun p => p.2 == Source.SOLAR)).map Prod.fst := by
  induction w with
  | nil => rfl
  | cons p w ih =>
    obtain ⟨l0, s0⟩ := p
    simp only [List.map_cons, List.nodup_cons] at hnd
    have hkeys : (w.map fun p => (p.1.name, p.2)).map Prod.fst = w.map (fun p => p.1.name) := by
      simp [List.map_map, Function.comp]
    have hl0 : dlook ((l0.name, s0) :: w.map fun p => (p.1.name, p.2)) l0.name = some s0 := by
      have hnone : dlook (w.map fun p => (p.1.name, p.2)) l0.name = none := by
        apply dlook_eq_none_of_not_mem
        rw [hkeys]
        exact hnd.1
      simp [dlook, hnone]
    have hother : ∀ y ∈ w.map Prod.fst,
        dlook ((l0.name, s0) :: w.map fun p => (p.1.name, p.2)) y.name =
          dlook (w.map fun p => (p.1.name, p.2)) y.name := by
      intro y hy
      apply dlook_cons_of_isSome
      apply dlook_isSome_of_mem
      rw [hkeys]
      rcases List.mem_map.mp hy with ⟨q, hq, hqy⟩
      exact List.mem_map.mpr ⟨q, hq, by rw [hqy]⟩
    simp only [List.map_cons, List.filter_cons]
    rw [hl0]
    have htail : (w.map Prod.fst).filter
        (fun l => dlook ((l0.name, s0) :: w.map fun p => (p.1.name, p.2)) l.name
          == some Source.SOLAR) =
        (w.map Prod.fst).filter
          (fun l => dlook (w.map fun p => (p.1.name, p.2)) l.name == some Source.SOLAR) := by
      apply List.filter_congr
      intro y hy
      rw [hother y hy]
    cases s0 with
    | SOLAR =>
      simp only [show (some Source.SOLAR == some Source.SOLAR) = true from rfl,
        show (Source.SOLAR == Source.SOLAR) = true from rfl, if_pos]
      rw [htail, ih hnd.2]
      simp
    | GRID =>
      simp only [show (some Source.GRID == some Source.SOLAR) = false from rfl,
        show (Source.GRID == Source.SOLAR) = false from rfl]
      simp only [Bool.false_eq_true, if_false]
      rw [htail, ih hnd.2]

theorem allocate_pos (pv : ℚ) (loads : List Load) (m f hmin : ℚ) (hpv : 0 < pv) :
    allocate_sources_for_step pv loads m f hmin =
      ((loads.filter fun l => !l.can_run_on_solar).map fun l => (l.name, Source.GRID)) ++
        (greedy_walk f hmin (max (pv * (1 - m)) 0)
          (List.insertionSort (loadLe hmin) (loads.filter fun l => l.can_run_on_solar))).map
          (fun p => (p.1.name, p.2)) := by
  unfold allocate_sources_for_step
  rw [if_neg (not_le.mpr hpv)]

/-- C10: the powers of the loads the allocator assigns SOLAR sum to at most
`available_kw * (1 - margin)`: the running budget never over-commits the
margin-reduced generation. -/
theorem solar_budget_bound (pv : ℚ) (loads : List Load) (solar_margin f hmin : ℚ)
    (hpv : 0 < pv) (hm0 : 0 ≤ solar_margin) (hm1 : solar_margin ≤ 1)
    (hf0 : 0 < f) (hf1 : f ≤ 1)
    (hpw : ∀ l ∈ loads, 0 ≤ l.power_kw)
    (hnd : (loads.map Load.name).Nodup) :
    ((loads.filter (fun l =>
        dlook (allocate_sources_for_step pv loads solar_margin f hmin) l.name
          == some Source.SOLAR)).map (fun l => l.power_kw)).sum ≤
      pv * (1 - solar_margin) := by
  have hrem0 : 0 ≤ pv * (1 - solar_margin) := mul_nonneg hpv.le (by linarith)
  have hmax : max (pv * (1 - solar_margin)) 0 = pv * (1 - solar_margin) := max_eq_left hrem0
  have hnd_elig : ((loads.filter fun l => l.can_run_on_solar).map Load.name).Nodup :=
    hnd.sublist ((loads.filter_sublist).map Load.name)
  have hperm_srt := List.perm_insertionSort (loadLe hmin)
    (loads.filter fun l => l.can_run_on_solar)
  have hnd_srt : ((List.insertionSort (loadLe hmin)
      (loads.filter fun l => l.can_run_on_solar)).map Load.name).Nodup :=
    ((hperm_srt.map Load.name).nodup_iff).mpr hnd_elig
  have hwfst := greedy_walk_map_fst f hmin (max (pv * (1 - solar_margin)) 0)
    (List.insertionSort (loadLe hmin) (loads.filter fun l => l.can_run_on_solar))
  have hwkeys : ((greedy_walk f hmin (max (pv * (1 - solar_margin)) 0)
        (List.insertionSort (loadLe hmin) (loads.filter fun l => l.can_run_on_solar))).map
        (fun p => p.1.name)).Nodup := by
    have : (greedy_walk f hmin (max (pv * (1 - solar_margin)) 0)
        (List.insertionSort (loadLe hmin) (loads.filter fun l => l.can_run_on_solar))).map
        (fun p => p.1.name) =
        ((greedy_walk f hmin (max (pv * (1 - solar_margin)) 0)
          (List.insertionSort (loadLe hmin) (loads.filter fun l => l.can_run_on_solar))).map
          Prod.fst).map Load.name := by
      simp [List.map_map, Function.comp]
    rw [this, hwfst]
    exact hnd_srt
  have hwpkeys : ((greedy_walk f hmin (max (pv * (1 - solar_margin)) 0)
        (List.insertionSort (loadLe hmin) (loads.filter fun l => l.can_run_on_solar))).map
        (fun p => (p.1.name, p.2))).map Prod.fst =
      (List.insertionSort (loadLe hmin) (loads.filter fun l => l.can_run_on_solar)).map
        Load.name := by
    have h1 : ((greedy_walk f hmin (max (pv * (1 - solar_margin)) 0)
        (List.insertionSort (loadLe hmin) (loads.filter fun l => l.can_run_on_solar))).map
        (fun p => (p.1.name, p.2))).map Prod.fst =
        (greedy_walk f hmin (max (pv * (1 - solar_margin)) 0)
          (List.insertionSort (loadLe hmin) (loads.filter fun l => l.can_run_on_solar))).map
          (fun p => p.1.name) := by
      simp [List.map_map, Function.comp]
    rw [h1]
    conv_rhs => rw [← hwfst]
    simp [List.map_map, Function.comp]
  simp only [allocate_pos pv loads solar_margin f hmin hpv]
  -- split the sum: grid-only loads contribute nothing
  have hsplit := List.filter_append_perm (fun l => l.can_run_on_solar) loads
  have hperm_filtered := (hsplit.filter (fun l =>
      dlook (((loads.filter fun l => !l.can_run_on_solar).map fun l => (l.name, Source.GRID)) ++
        (greedy_walk f hmin (max (pv * (1 - solar_margin)) 0)
          (List.insertionSort (loadLe hmin) (loads.filter fun l => l.can_run_on_solar))).map
          (fun p => (p.1.name, p.2))) l.name == some Source.SOLAR))
  rw [← ((hperm_filtered.map (fun l => l.power_kw)).sum_eq)]
  rw [List.filter_append, List.map_append, List.sum_append]
  -- the grid-only part filters to nothing
  have hgrid_nil : (loads.filter fun l => !l.can_run_on_solar).filter (fun l =>
      dlook (((loads.filter fun l => !l.can_run_on_solar).map fun l => (l.name, Source.GRID)) ++
        (greedy_walk f hmin (max (pv * (1 - solar_margin)) 0)
          (List.insertionSort (loadLe hmin) (loads.filter fun l => l.can_run_on_solar))).map
          (fun p => (p.1.name, p.2))) l.name == some Source.SOLAR) = [] := by
    apply List.filter_eq_nil_iff.mpr
    intro l hl
    have hlnot : l.name ∉ ((greedy_walk f hmin (max (pv * (1 - solar_margin)) 0)
        (List.insertionSort (loadLe hmin) (loads.filter fun l => l.can_run_on_solar))).map
        (fun p => (p.1.name, p.2))).map Prod.fst := by
      rw [hwpkeys]
      intro hmem
      rcases List.mem_map.mp hmem with ⟨l2, hl2, hl2name⟩
      have hl2' : l2 ∈ loads.filter fun l => l.can_run_on_solar := hperm_srt.mem_iff.mp hl2
      have heq : l2 = l := by
        apply List.inj_on_of_nodup_map hnd
        · exact List.mem_of_mem_filter hl2'
        · exact List.mem_of_mem_filter hl
        · exact hl2name
      have hcan : l2.can_run_on_solar := by
        have := List.of_mem_filter hl2'
        simpa using this
      have hncan : ¬ l.can_run_on_solar := by
        have := List.of_mem_filter hl
        simpa using this
      rw [heq] at hcan
      exact hncan hcan
    have hnone := dlook_eq_none_of_not_mem _ _ hlnot
    rw [dlook_append, hnone]
    have hname_mem : l.name ∈ (loads.filter fun l => !l.can_run_on_solar).map Load.name :=
      List.mem_map.mpr ⟨l, hl, rfl⟩
    rw [dlook_map_const]
    rw [if_pos hname_mem]
    simp
  rw [hgrid_nil]
  simp only [List.map_nil, List.sum_nil, add_zero]
  -- on the eligible part, the lookup goes to the walked pairs
  have hcongr : (loads.filter fun l => l.can_run_on_solar).filter (fun l =>
      dlook (((loads.filter fun l => !l.can_run_on_solar).map fun l => (l.name, Source.GRID)) ++
        (greedy_walk f hmin (max (pv * (1 - solar_margin)) 0)
          (List.insertionSort (loadLe hmin) (loads.filter fun l => l.can_run_on_solar))).map
          (fun p => (p.1.name, p.2))) l.name == some Source.SOLAR) =
      (loads.filter fun l => l.can_run_on_solar).filter (fun l =>
        dlook ((greedy_walk f hmin (max (pv * (1 - solar_margin)) 0)
          (List.insertionSort (loadLe hmin) (loads.filter fun l => l.can_run_on_solar))).map
          (fun p => (p.1.name, p.2))) l.name == some Source.SOLAR) := by
    apply List.filter_congr
    intro l hl
    have hmem : l.name ∈ ((greedy_walk f hmin (max (pv * (1 - solar_margin)) 0)
        (List.insertionSort (loadLe hmin) (loads.filter fun l => l.can_run_on_solar))).map
        (fun p => (p.1.name, p.2))).map Prod.fst := by
      rw [hwpkeys]
      exact List.mem_map.mpr ⟨l, hperm_srt.mem_iff.mpr hl, rfl⟩
    have hsome := dlook_isSome_of_mem _ _ hmem
    rw [dlook_append]
    cases h2 : dlook ((greedy_walk f hmin (max (pv * (1 - solar_margin)) 0)
        (List.insertionSort (loadLe hmin) (loads.filter fun l => l.can_run_on_solar))).map
        (fun p => (p.1.name, p.2))) l.name with
    | some v => rfl
    | none => rw [h2] at hsome; simp at hsome
  rw [hcongr]
  -- move from the eligible input order to the sorted order (a permutation)
  have hperm2 := (hperm_srt.symm.filter (fun l =>
      dlook ((greedy_walk f hmin (max (pv * (1 - solar_margin)) 0)
        (List.insertionSort (loadLe hmin) (loads.filter fun l => l.can_run_on_solar))).map
        (fun p => (p.1.name, p.2))) l.name == some Source.SOLAR))
  rw [(hperm2.map (fun l => l.power_kw)).sum_eq]
  -- rewrite the sorted list as the walked loads and use the stability of the walk
  have hfilter_eq : (List.insertionSort (loadLe hmin)
      (loads.filter fun l => l.can_run_on_solar)).filter (fun l =>
        dlook ((greedy_walk f hmin (max (pv * (1 - solar_margin)) 0)
          (List.insertionSort (loadLe hmin) (loads.filter fun l => l.can_run_on_solar))).map
          (fun p => (p.1.name, p.2))) l.name == some Source.SOLAR) =
      ((greedy_walk f hmin (max (pv * (1 - solar_margin)) 0)
        (List.insertionSort (loadLe hmin) (loads.filter fun l => l.can_run_on_solar))).filter
        (fun p => p.2 == Source.SOLAR)).map Prod.fst := by
    have h0 := filter_dlook_walked _ hwkeys
    rw [hwfst] at h0
    exact h0
  rw [hfilter_eq]
  rw [List.map_map]
  have hbound := greedy_walk_solar_sum_le f hmin hf1
    (List.insertionSort (loadLe hmin) (loads.filter fun l => l.can_run_on_solar))
    (max (pv * (1 - solar_margin)) 0) (le_max_right _ _)
  calc (((greedy_walk f hmin (max (pv * (1 - solar_margin)) 0)
        (List.insertionSort (loadLe hmin) (loads.filter fun l => l.can_run_on_solar))).filter
        (fun p => p.2 == Source.SOLAR)).map ((fun l => l.power_kw) ∘ Prod.fst)).sum =
      (((greedy_walk f hmin (max (pv * (1 - solar_margin)) 0)
        (List.insertionSort (loadLe hmin) (loads.filter fun l => l.can_run_on_solar))).filter
        (fun p => p.2 == Source.SOLAR)).map (fun p => p.1.power_kw)).sum := by
        congr 1
  _ ≤ pv * (1 - solar_margin) := hbound.trans (le_of_eq hmax)

/-! ## Dispatch controller (src/logic/switching.py, SwitchingController) -/

structure DState where
  source : Source
  steps : ℤ
deriving DecidableEq, Repr

/-- The controller object: configuration fields (immutable after construction)
and the three mutable state containers `_state`, `_force_grid_until_step`
and `_step_index`. -/
structure SwitchingController where
  min_hold_steps : ℤ
  step_seconds : ℤ
  cooldown_seconds : ℤ
  cooldown_steps : ℤ
  solar_margin : ℚ
  high_power_solar_factor : ℚ
  high_power_min_kw : ℚ
  state : List (String × DState)
  force_grid_until_step : List (String × ℤ)
  step_index : ℤ
deriving DecidableEq, Repr

/-- `SwitchingController.__init__`: `cooldown_steps = max(cooldown_seconds //
step_seconds, 1)` uses Python floor division, which raises ZeroDivisionError
when `step_seconds = 0` — the only failing construction path; no other
argument is validated. -/
def mkSwitchingController (min_hold_steps step_seconds cooldown_seconds : ℤ)
    (solar_margin high_power_solar_factor high_power_min_kw : ℚ) :
    Option SwitchingController :=
  if step_seconds = 0 then none
  else some
    { min_hold_steps := min_hold_steps
      step_seconds := step_seconds
      cooldown_seconds := cooldown_seconds
      cooldown_steps := max (Int.fdiv cooldown_seconds step_seconds) 1
      solar_margin := solar_margin
      high_power_solar_factor := high_power_solar_factor
      high_power_min_kw := high_power_min_kw
      state := []
      force_grid_until_step := []
      step_index := 0 }

/-- `_check_and_update_spikes`: every load whose power reaches its threshold
overwrites its forced-grid window with `step_index + cooldown_steps`. -/
def check_and_update_spikes (cooldown_steps step_index : ℤ)
    (force : List (String × ℤ)) (loads : List Load) : List (String × ℤ) :=
  loads.foldl (fun acc l =>
    match l.high_event_threshold_kw with
    | none => acc
    | some th =>
      if th ≤ l.power_kw then acc ++ [(l.name, step_index + cooldown_steps)] else acc) force

/-- The hysteresis resolution of `decide` when no forcing window is active. -/
def resolve_free (min_hold_steps : ℤ) (entry : Option DState) (suggested_src : Source) :
    Source :=
  match entry with
  | none => suggested_src
  | some d =>
    if d.source = suggested_src then suggested_src
    else if min_hold_steps ≤ d.steps then suggested_src
    else d.source

/-- Per-load resolution of `decide`: an active forcing window
(`step_index <= force_until`) yields GRID unconditionally; otherwise
hysteresis applies. -/
def resolve_load (min_hold_steps : ℤ) (force_until : Option ℤ) (step_index : ℤ)
    (entry : Option DState) (suggested_src : Source) : Source :=
  match force_until with
  | some u =>
    if step_index ≤ u then Source.GRID
    else resolve_free min_hold_steps entry suggested_src
  | none => resolve_free min_hold_steps entry suggested_src

/-- `_update_state`: create on first sighting with steps 1, increment on the
same source, reset to 1 on a switch. -/
def update_state (st : List (String × DState)) (n : String) (s : Source) :
    List (String × DState) :=
  match dlook st n with
  | none => st ++ [(n, ⟨s, 1⟩)]
  | some d =>
    if d.source = s then st ++ [(n, ⟨s, d.steps + 1⟩)]
    else st ++ [(n, ⟨s, 1⟩)]

/-- The body of the per-load loop of `decide`, threading the output write log
and the state map. Python reads `suggested[load.name]`, which is always
present because the allocator writes every input load's name; the `getD
Source.GRID` default is therefore never reached on real inputs. -/
def decide_fold (min_hold_steps : ℤ) (force : List (String × ℤ)) (step_index : ℤ)
    (suggested : List (String × Source))
    (acc : List (String × Source) × List (String × DState)) (l : Load) :
    List (String × Source) × List (String × DState) :=
  let s := resolve_load min_hold_steps (dlook force l.name) step_index
    (dlook acc.2 l.name) ((dlook suggested l.name).getD Source.GRID)
  (acc.1 ++ [(l.name, s)], update_state acc.2 l.name s)

/-- `SwitchingController.decide`: advance the step index, run the spike scan,
get the stateless suggestion, and resolve every load in input order while
mutating the per-load state. Returns the allocation write log and the updated
controller. -/
def SwitchingController.decide (c : SwitchingController) (pv_power_kw : ℚ)
    (loads : List Load) : List (String × Source) × SwitchingController :=
  let idx := c.step_index + 1
  let force := check_and_update_spikes c.cooldown_steps idx c.force_grid_until_step loads
  let suggested := allocate_sources_for_step pv_power_kw loads c.solar_margin
    c.high_power_solar_factor c.high_power_min_kw
  let done := loads.foldl (decide_fold c.min_hold_steps force idx suggested)
    (([] : List (String × Source)), c.state)
  (done.1, { c with step_index := idx, force_grid_until_step := force, state := done.2 })

/-- One controller driven over a list of per-step inputs; element `j` is the
output and post-state of call `j`. -/
def runSteps (c : SwitchingController) : List (ℚ × List Load) →
    List (List (String × Source) × SwitchingController)
  | [] => []
  | (pv, ls) :: rest =>
    let r := SwitchingController.decide c pv ls
    r :: runSteps r.2 rest

/-- The controller states along a run: entry `j` is the state BEFORE call `j`. -/
def statesFrom (c : SwitchingController) (trace : List (ℚ × List Load)) :
    List SwitchingController :=
  c :: (runSteps c trace).map (fun p => p.2)

theorem spikes_cons_none (cd idx : ℤ) (fm : List (String × ℤ)) (l : Load) (ls : List Load)
    (h : l.high_event_threshold_kw = none) :
    check_and_update_spikes cd idx fm (l :: ls) = check_and_update_spikes cd idx fm ls := by
  unfold check_and_update_spikes
  simp only [List.foldl_cons, h]

theorem spikes_cons_some (cd idx : ℤ) (fm : List (String × ℤ)) (l : Load) (ls : List Load)
    (th : ℚ) (h : l.high_event_threshold_kw = some th) :
    check_and_update_spikes cd idx fm (l :: ls) =
      check_and_update_spikes cd idx
        (if th ≤ l.power_kw then fm ++ [(l.name, idx + cd)] else fm) ls := by
  unfold check_and_update_spikes
  simp only [List.foldl_cons, h]

theorem spikes_lookup (cd idx : ℤ) (loads : List Load) (n : String) :
    ∀ fm : List (String × ℤ),
      dlook (check_and_update_spikes cd idx fm loads) n = dlook fm n ∨
      dlook (check_and_update_spikes cd idx fm loads) n = some (idx + cd) := by
  induction loads with
  | nil => intro fm; exact Or.inl rfl
  | cons l ls ih =>
    intro fm
    cases hth : l.high_event_threshold_kw with
    | none =>
      rw [spikes_cons_none cd idx fm l ls hth]
      exact ih fm
    | some th =>
      rw [spikes_cons_some cd idx fm l ls th hth]
      by_cases hp : th ≤ l.power_kw
      · rw [if_pos hp]
        rcases ih (fm ++ [(l.name, idx + cd)]) with h | h
        · rw [h, dlook_append_single]
          by_cases he : l.name = n
          · rw [if_pos he]; exact Or.inr rfl
          · rw [if_neg he]; exact Or.inl rfl
        · exact Or.inr h
      · rw [if_neg hp]
        exact ih fm

theorem spikes_keep (cd idx : ℤ) (loads : List Load) (n : String)
    (fm : List (String × ℤ)) (h : dlook fm n = some (idx + cd)) :
    dlook (check_and_update_spikes cd idx fm loads) n = some (idx + cd) := by
  rcases spikes_lookup cd idx loads n fm with h1 | h1
  · rw [h1, h]
  · exact h1

theorem spikes_hit (cd idx : ℤ) (loads : List Load) (n : String)
    (h : ∃ l ∈ loads, l.name = n ∧ ∃ th, l.high_event_threshold_kw = some th ∧
      th ≤ l.power_kw) :
    ∀ fm, dlook (check_and_update_spikes cd idx fm loads) n = some (idx + cd) := by
  induction loads with
  | nil => simp at h
  | cons l ls ih =>
    intro fm
    rcases h with ⟨l2, hl2, hname, th, hth, hp⟩
    rcases List.mem_cons.mp hl2 with he | he
    · subst he
      rw [spikes_cons_some cd idx fm l2 ls th hth, if_pos hp]
      apply spikes_keep
      rw [dlook_append_single, if_pos hname]
    · have hex : ∃ l3 ∈ ls, l3.name = n ∧ ∃ th3, l3.high_event_threshold_kw = some th3 ∧
        th3 ≤ l3.power_kw := ⟨l2, he, hname, th, hth, hp⟩
      cases hth2 : l.high_event_threshold_kw with
      | none =>
        rw [spikes_cons_none cd idx fm l ls hth2]
        exact ih hex fm
      | some th2 =>
        rw [spikes_cons_some cd idx fm l ls th2 hth2]
        by_cases hp2 : th2 ≤ l.power_kw
        · rw [if_pos hp2]
          exact ih hex _
        · rw [if_neg hp2]
          exact ih hex fm

theorem spikes_no_retrigger (cd idx : ℤ) (loads : List Load) (n : String)
    (h : ∀ l ∈ loads, l.name = n → ∀ th, l.high_event_threshold_kw = some th →
      l.power_kw < th) :
    ∀ fm, dlook (check_and_update_spikes cd idx fm loads) n = dlook fm n := by
  induction loads with
  | nil => intro fm; rfl
  | cons l ls ih =>
    intro fm
    have hls : ∀ l2 ∈ ls, l2.name = n → ∀ th, l2.high_event_threshold_kw = some th →
        l2.power_kw < th := fun l2 h2 => h l2 (List.mem_cons_of_mem l h2)
    cases hth : l.high_event_threshold_kw with
    | none =>
      rw [spikes_cons_none cd idx fm l ls hth]
      exact ih hls fm
    | some th =>
      rw [spikes_cons_some cd idx fm l ls th hth]
      by_cases hp : th ≤ l.power_kw
      · rw [if_pos hp]
        have hne : l.name ≠ n := by
          intro he
          exact absurd hp (not_le.mpr (h l (List.mem_cons_self l ls) he th hth))
        rw [ih hls (fm ++ [(l.name, idx + cd)]), dlook_append_single, if_neg hne]
      · rw [if_neg hp]
        exact ih hls fm

theorem update_state_frame (st : List (String × DState)) (k n : String) (s : Source)
    (h : k ≠ n) : dlook (update_state st k s) n = dlook st n := by
  unfold update_state
  cases hd : dlook st k with
  | none =>
    show dlook (st ++ [(k, ⟨s, 1⟩)]) n = dlook st n
    rw [dlook_append_single, if_neg h]
  | some d =>
    show dlook (if d.source = s then st ++ [(k, ⟨s, d.steps + 1⟩)]
      else st ++ [(k, ⟨s, 1⟩)]) n = dlook st n
    by_cases hs : d.source = s
    · rw [if_pos hs, dlook_append_single, if_neg h]
    · rw [if_neg hs, dlook_append_single, if_neg h]

theorem decide_fold_out_frame (mh : ℤ) (force : List (String × ℤ)) (idx : ℤ)
    (sug : List (String × Source)) (loads : List Load) (n : String)
    (h : ∀ l ∈ loads, l.name ≠ n) :
    ∀ acc, dlook ((loads.foldl (decide_fold mh force idx sug) acc).1) n = dlook acc.1 n := by
  induction loads with
  | nil => intro acc; rfl
  | cons l ls ih =>
    intro acc
    rw [List.foldl_cons]
    rw [ih (fun l2 h2 => h l2 (List.mem_cons_of_mem l h2))]
    show dlook (acc.1 ++ [(l.name, _)]) n = dlook acc.1 n
    rw [dlook_append_single, if_neg (h l (List.mem_cons_self l ls))]

theorem decide_fold_forced (mh : ℤ) (force : List (String × ℤ)) (idx : ℤ)
    (sug : List (String × Source)) (loads : List Load) (n : String)
    (hres : ∀ entry s, resolve_load mh (dlook force n) idx entry s = Source.GRID) :
    ∀ acc, ((∃ l ∈ loads, l.name = n) ∨ dlook acc.1 n = some Source.GRID) →
      dlook ((loads.foldl (decide_fold mh force idx sug) acc).1) n = some Source.GRID := by
  induction loads with
  | nil =>
    intro acc h
    rcases h with h | h
    · simp at h
    · exact h
  | cons l ls ih =>
    intro acc h
    rw [List.foldl_cons]
    by_cases he : l.name = n
    · apply ih
      right
      show dlook (acc.1 ++ [(l.name, _)]) n = some Source.GRID
      rw [dlook_append_single, if_pos he, he]
      rw [hres]
    · apply ih
      rcases h with ⟨l2, hl2, hn2⟩ | h
      · rcases List.mem_cons.mp hl2 with he2 | he2
        · exact absurd (he2 ▸ hn2) he
        · exact Or.inl ⟨l2, he2, hn2⟩
      · right
        show dlook (acc.1 ++ [(l.name, _)]) n = some Source.GRID
        rw [dlook_append_single, if_neg he]
        exact h

theorem decide_fold_isSome (mh : ℤ) (force : List (String × ℤ)) (idx : ℤ)
    (sug : List (String × Source)) (loads : List Load) (n : String) :
    ∀ acc, ((∃ l ∈ loads, l.name = n) ∨ (dlook acc.1 n).isSome) →
      (dlook ((loads.foldl (decide_fold mh force idx sug) acc).1) n).isSome := by
  induction loads with
  | nil =>
    intro acc h
    rcases h with h | h
    · simp at h
    · exact h
  | cons l ls ih =>
    intro acc h
    rw [List.foldl_cons]
    by_cases he : l.name = n
    · apply ih
      right
      show (dlook (acc.1 ++ [(l.name, _)]) n).isSome
      rw [dlook_append_single, if_pos he]
      rfl
    · apply ih
      rcases h with ⟨l2, hl2, hn2⟩ | h
      · rcases List.mem_cons.mp hl2 with he2 | he2
        · exact absurd (he2 ▸ hn2) he
        · exact Or.inl ⟨l2, he2, hn2⟩
      · right
        show (dlook (acc.1 ++ [(l.name, _)]) n).isSome
        rw [dlook_append_single, if_neg he]
        exact h

theorem decide_fold_out (mh : ℤ) (force : List (String × ℤ)) (idx : ℤ)
    (sug : List (String × Source)) (loads : List Load) (n : String)
    (e0 : Option DState) (hnd : (loads.map Load.name).Nodup) :
    ∀ acc, dlook acc.2 n = e0 → (∃ l ∈ loads, l.name = n) →
      dlook ((loads.foldl (decide_fold mh force idx sug) acc).1) n =
        some (resolve_load mh (dlook force n) idx e0
          ((dlook sug n).getD Source.GRID)) := by
  induction loads with
  | nil => intro acc _ h; simp at h
  | cons l ls ih =>
    simp only [List.map_cons, List.nodup_cons] at hnd
    intro acc hacc h
    rw [List.foldl_cons]
    by_cases he : l.name = n
    · have hframe : ∀ l2 ∈ ls, l2.name ≠ n := by
        intro l2 h2 hn2
        apply hnd.1
        exact List.mem_map.mpr ⟨l2, h2, by rw [hn2, he]⟩
      rw [decide_fold_out_frame mh force idx sug ls n hframe]
      show dlook (acc.1 ++ [(l.name, resolve_load mh (dlook force l.name) idx
        (dlook acc.2 l.name) ((dlook sug l.name).getD Source.GRID))]) n = _
      rw [dlook_append_single, if_pos he, he, hacc]
    · rcases h with ⟨l2, hl2, hn2⟩
      rcases List.mem_cons.mp hl2 with he2 | he2
      · exact absurd (he2 ▸ hn2) he
      · apply ih hnd.2
        · show dlook (update_state acc.2 l.name _) n = e0
          rw [update_state_frame acc.2 l.name n _ he, hacc]
        · exact ⟨l2, he2, hn2⟩

theorem decide_force_eq (c : SwitchingController) (pv : ℚ) (loads : List Load) :
    (SwitchingController.decide c pv loads).2.force_grid_until_step =
      check_and_update_spikes c.cooldown_steps (c.step_index + 1)
        c.force_grid_until_step loads := rfl

theorem decide_step_index (c : SwitchingController) (pv : ℚ) (loads : List Load) :
    (SwitchingController.decide c pv loads).2.step_index = c.step_index + 1 := rfl

theorem decide_cooldown (c : SwitchingController) (pv : ℚ) (loads : List Load) :
    (SwitchingController.decide c pv loads).2.cooldown_steps = c.cooldown_steps := rfl

theorem decide_out_eq (c : SwitchingController) (pv : ℚ) (loads : List Load) :
    (SwitchingController.decide c pv loads).1 =
      (loads.foldl (decide_fold c.min_hold_steps
        (check_and_update_spikes c.cooldown_steps (c.step_index + 1)
          c.force_grid_until_step loads)
        (c.step_index + 1)
        (allocate_sources_for_step pv loads c.solar_margin c.high_power_solar_factor
          c.high_power_min_kw))
        (([] : List (String × Source)), c.state)).1 := rfl

theorem decide_forced_grid (c : SwitchingController) (pv : ℚ) (loads : List Load)
    (n : String) (u : ℤ)
    (hu : dlook (check_and_update_spikes c.cooldown_steps (c.step_index + 1)
      c.force_grid_until_step loads) n = some u)
    (hidx : c.step_index + 1 ≤ u)
    (hmem : ∃ l ∈ loads, l.name = n) :
    dlook (SwitchingController.decide c pv loads).1 n = some Source.GRID := by
  rw [decide_out_eq]
  apply decide_fold_forced
  · intro entry s
    unfold resolve_load
    rw [hu]
    show (if c.step_index + 1 ≤ u then Source.GRID else _) = Source.GRID
    rw [if_pos hidx]
  · exact Or.inl hmem

theorem decide_out (c : SwitchingController) (pv : ℚ) (loads : List Load) (l : Load)
    (hnd : (loads.map Load.name).Nodup) (hl : l ∈ loads) :
    dlook (SwitchingController.decide c pv loads).1 l.name =
      some (resolve_load c.min_hold_steps
        (dlook (check_and_update_spikes c.cooldown_steps (c.step_index + 1)
          c.force_grid_until_step loads) l.name)
        (c.step_index + 1) (dlook c.state l.name)
        ((dlook (allocate_sources_for_step pv loads c.solar_margin
          c.high_power_solar_factor c.high_power_min_kw) l.name).getD Source.GRID)) := by
  rw [decide_out_eq]
  exact decide_fold_out _ _ _ _ loads l.name (dlook c.state l.name) hnd
    (([], c.state)) rfl ⟨l, hl, rfl⟩

theorem runSteps_length (c : SwitchingController) (tr : List (ℚ × List Load)) :
    (runSteps c tr).length = tr.length := by
  induction tr generalizing c with
  | nil => rfl
  | cons p rest ih =>
    obtain ⟨pv, ls⟩ := p
    simp [runSteps, ih]

theorem statesFrom_cons (c : SwitchingController) (pv : ℚ) (ls : List Load)
    (rest : List (ℚ × List Load)) :
    statesFrom c ((pv, ls) :: rest) =
      c :: statesFrom (SwitchingController.decide c pv ls).2 rest := rfl

theorem statesFrom_length (c : SwitchingController) (tr : List (ℚ × List Load)) :
    (statesFrom c tr).length = tr.length + 1 := by
  unfold statesFrom
  simp [runSteps_length]

/-- Every stored forcing window was written at some earlier step, so it is at
most `step_index + cooldown_steps`. -/
def ForceInv (c : SwitchingController) : Prop :=
  ∀ n u, dlook c.force_grid_until_step n = some u → u ≤ c.step_index + c.cooldown_steps

theorem forceInv_decide (c : SwitchingController) (pv : ℚ) (ls : List Load)
    (h : ForceInv c) : ForceInv (SwitchingController.decide c pv ls).2 := by
  intro n u hu
  rw [decide_force_eq] at hu
  rw [decide_step_index, decide_cooldown]
  rcases spikes_lookup c.cooldown_steps (c.step_index + 1) ls n c.force_grid_until_step
    with h1 | h1
  · rw [h1] at hu
    have := h n u hu
    linarith
  · rw [h1] at hu
    injection hu with hu2
    rw [← hu2]

theorem force_mono_decide (c : SwitchingController) (pv : ℚ) (ls : List Load)
    (n : String) (u : ℤ) (hinv : ForceInv c)
    (hu : dlook c.force_grid_until_step n = some u) :
    ∃ v, dlook (SwitchingController.decide c pv ls).2.force_grid_until_step n = some v ∧
      u ≤ v := by
  rw [decide_force_eq]
  rcases spikes_lookup c.cooldown_steps (c.step_index + 1) ls n c.force_grid_until_step
    with h1 | h1
  · exact ⟨u, by rw [h1]; exact hu, le_refl u⟩
  · refine ⟨c.step_index + 1 + c.cooldown_steps, h1, ?_⟩
    have := hinv n u hu
    linarith

theorem force_mono_aux (d : SwitchingController) :
    ∀ (tr : List (ℚ × List Load)) (c : SwitchingController), ForceInv c →
      ∀ j, j + 1 < (statesFrom c tr).length →
      ∀ n u, dlook ((statesFrom c tr).getD j d).force_grid_until_step n = some u →
      ∃ v, dlook ((statesFrom c tr).getD (j + 1) d).force_grid_until_step n = some v ∧
        u ≤ v := by
  intro tr
  induction tr with
  | nil =>
    intro c hinv j hj n u hu
    rw [statesFrom_length] at hj
    simp only [List.length_nil] at hj
    omega
  | cons p rest ih =>
    obtain ⟨pv, ls⟩ := p
    intro c hinv j hj n u hu
    rw [statesFrom_cons] at hj hu ⊢
    cases j with
    | zero =>
      rw [List.getD_cons_zero] at hu
      rw [List.getD_cons_succ]
      have h0 : (statesFrom (SwitchingController.decide c pv ls).2 rest).getD 0 d =
          (SwitchingController.decide c pv ls).2 := by
        unfold statesFrom
        rw [List.getD_cons_zero]
      rw [h0]
      exact force_mono_decide c pv ls n u hinv hu
    | succ j =>
      rw [List.getD_cons_succ] at hu
      rw [List.getD_cons_succ]
      apply ih (SwitchingController.decide c pv ls).2 (forceInv_decide c pv ls hinv) j _ n u hu
      rw [List.length_cons] at hj
      omega

/-- C7: along any run of `decide` calls from a freshly constructed controller,
the stored `force_grid_until_step` value of a load never decreases: a
re-trigger overwrites it with `step_index + cooldown_steps`, which can only
extend or equal an active window. -/
theorem force_window_monotone (c0 : SwitchingController)
    (h0 : c0.force_grid_until_step = []) (trace : List (ℚ × List Load)) (j : ℕ)
    (hj : j + 1 < (statesFrom c0 trace).length) (n : String) (u : ℤ)
    (hu : dlook ((statesFrom c0 trace).getD j c0).force_grid_until_step n = some u) :
    ∃ v, dlook ((statesFrom c0 trace).getD (j + 1) c0).force_grid_until_step n = some v ∧
      u ≤ v := by
  apply force_mono_aux c0 trace c0 _ j hj n u hu
  intro n2 u2 hu2
  rw [h0] at hu2
  simp [dlook] at hu2

theorem runSteps_cons (c : SwitchingController) (pv : ℚ) (ls : List Load)
    (rest : List (ℚ × List Load)) :
    runSteps c ((pv, ls) :: rest) =
      SwitchingController.decide c pv ls ::
        runSteps (SwitchingController.decide c pv ls).2 rest := rfl

theorem run_window_grid (CD T : ℤ) (n : String)
    (d : List (String × Source) × SwitchingController) :
    ∀ (tr : List (ℚ × List Load)) (c : SwitchingController),
      c.cooldown_steps = CD →
      (∃ u, dlook c.force_grid_until_step n = some u ∧ T ≤ u) →
      T ≤ c.step_index + CD + 1 →
      ∀ j, j < tr.length →
        c.step_index + (j : ℤ) + 1 ≤ T →
        (∃ l ∈ (tr.getD j (0, [])).2, l.name = n) →
        dlook ((runSteps c tr).getD j d).1 n = some Source.GRID := by
  intro tr
  induction tr with
  | nil =>
    intro c _ _ _ j hj
    simp at hj
  | cons p rest ih =>
    obtain ⟨pv, ls⟩ := p
    intro c hcd hJ hT j hj hwin hmem
    rw [runSteps_cons]
    obtain ⟨u, hu, hTu⟩ := hJ
    cases j with
    | zero =>
      simp only [List.getD_cons_zero] at hmem ⊢
      push_cast at hwin
      rcases spikes_lookup c.cooldown_steps (c.step_index + 1) ls n c.force_grid_until_step
        with h1 | h1
      · apply decide_forced_grid c pv ls n u (by rw [h1]; exact hu) (by linarith) hmem
      · apply decide_forced_grid c pv ls n (c.step_index + 1 + c.cooldown_steps) h1 _ hmem
        rw [hcd]
        linarith
    | succ j =>
      simp only [List.getD_cons_succ] at hmem ⊢
      push_cast at hwin
      apply ih (SwitchingController.decide c pv ls).2
      · rw [decide_cooldown]
        exact hcd
      · rw [decide_force_eq]
        rcases spikes_lookup c.cooldown_steps (c.step_index + 1) ls n c.force_grid_until_step
          with h1 | h1
        · exact ⟨u, by rw [h1]; exact hu, hTu⟩
        · refine ⟨c.step_index + 1 + c.cooldown_steps, h1, ?_⟩
          rw [hcd]
          linarith
      · rw [decide_step_index]
        linarith
      · rw [List.length_cons] at hj
        omega
      · rw [decide_step_index]
        push_cast
        linarith
      · exact hmem

theorem run_no_retrigger (V : ℤ) (n : String) (d : SwitchingController) :
    ∀ (tr : List (ℚ × List Load)) (c : SwitchingController),
      dlook c.force_grid_until_step n = some V →
      (∀ p ∈ tr, ∀ l ∈ p.2, l.name = n → ∀ th, l.high_event_threshold_kw = some th →
        l.power_kw < th) →
      ∀ j, j < (statesFrom c tr).length →
        dlook ((statesFrom c tr).getD j d).force_grid_until_step n = some V := by
  intro tr
  induction tr with
  | nil =>
    intro c hV _ j hj
    rw [statesFrom_length] at hj
    simp only [List.length_nil] at hj
    have hj0 : j = 0 := by omega
    subst hj0
    rw [show statesFrom c [] = [c] from rfl, List.getD_cons_zero]
    exact hV
  | cons p rest ih =>
    obtain ⟨pv, ls⟩ := p
    intro c hV hno j hj
    rw [statesFrom_cons] at hj ⊢
    cases j with
    | zero =>
      rw [List.getD_cons_zero]
      exact hV
    | succ j =>
      rw [List.getD_cons_succ]
      apply ih (SwitchingController.decide c pv ls).2
      · rw [decide_force_eq]
        rw [spikes_no_retrigger c.cooldown_steps (c.step_index + 1) ls n
          (fun l hl => hno (pv, ls) (List.mem_cons_self _ _) l hl) c.force_grid_until_step]
        exact hV
      · exact fun p hp => hno p (List.mem_cons_of_mem _ hp)
      · rw [List.length_cons] at hj
        omega

theorem statesFrom_step_index (d : SwitchingController) :
    ∀ (tr : List (ℚ × List Load)) (c : SwitchingController) (j : ℕ),
      j < (statesFrom c tr).length →
      ((statesFrom c tr).getD j d).step_index = c.step_index + j := by
  intro tr
  induction tr with
  | nil =>
    intro c j hj
    rw [statesFrom_length] at hj
    simp only [List.length_nil] at hj
    have hj0 : j = 0 := by omega
    subst hj0
    rw [show statesFrom c [] = [c] from rfl, List.getD_cons_zero]
    simp
  | cons p rest ih =>
    obtain ⟨pv, ls⟩ := p
    intro c j hj
    rw [statesFrom_cons] at hj ⊢
    cases j with
    | zero =>
      rw [List.getD_cons_zero]
      simp
    | succ j =>
      rw [List.getD_cons_succ]
      rw [ih (SwitchingController.decide c pv ls).2 j
        (by rw [List.length_cons] at hj; omega)]
      rw [decide_step_index]
      push_cast
      ring

theorem runSteps_getD_eq (d : List (String × Source) × SwitchingController)
    (dc : SwitchingController) :
    ∀ (tr : List (ℚ × List Load)) (c : SwitchingController) (j : ℕ), j < tr.length →
      (runSteps c tr).getD j d =
        SwitchingController.decide ((statesFrom c tr).getD j dc)
          (tr.getD j (0, [])).1 (tr.getD j (0, [])).2 := by
  intro tr
  induction tr with
  | nil =>
    intro c j hj
    simp at hj
  | cons p rest ih =>
    obtain ⟨pv, ls⟩ := p
    intro c j hj
    rw [runSteps_cons, statesFrom_cons]
    cases j with
    | zero =>
      simp only [List.getD_cons_zero]
    | succ j =>
      simp only [List.getD_cons_succ]
      exact ih (SwitchingController.decide c pv ls).2 j
        (by rw [List.length_cons] at hj; omega)

theorem resolve_load_some (mh u idx : ℤ) (entry : Option DState) (sug : Source) :
    resolve_load mh (some u) idx entry sug =
      if idx ≤ u then Source.GRID else resolve_free mh entry sug := rfl

theorem resolve_load_none (mh idx : ℤ) (entry : Option DState) (sug : Source) :
    resolve_load mh none idx entry sug = resolve_free mh entry sug := rfl

/-- C3: once a load spikes at the call with step index `t = step_index + 1`
(its power reaches its threshold), that call records
`force_grid_until_step = t + cooldown_steps` and outputs GRID; every later
call with step index in `[t, t + cooldown_steps]` in which the name appears
outputs GRID regardless of power; and absent a re-trigger the stored window
stays exactly `t + cooldown_steps`, so past it the decision is the plain
(unforced) hysteresis resolution. -/
theorem spike_cooldown_forces_grid (c0 : SwitchingController)
    (hcd : 1 ≤ c0.cooldown_steps) (pv0 : ℚ) (loads0 : List Load) (l : Load)
    (hl : l ∈ loads0) (th : ℚ) (hth : l.high_event_threshold_kw = some th)
    (hsp : th ≤ l.power_kw) (trace : List (ℚ × List Load)) :
    dlook (SwitchingController.decide c0 pv0 loads0).1 l.name = some Source.GRID ∧
    dlook (SwitchingController.decide c0 pv0 loads0).2.force_grid_until_step l.name =
      some (c0.step_index + 1 + c0.cooldown_steps) ∧
    (∀ j, j < trace.length → ((j : ℤ) + 1 ≤ c0.cooldown_steps) →
      (∃ l2 ∈ (trace.getD j (0, [])).2, l2.name = l.name) →
      dlook ((runSteps (SwitchingController.decide c0 pv0 loads0).2 trace).getD j
        ([], c0)).1 l.name = some Source.GRID) ∧
    ((∀ p ∈ trace, ∀ l2 ∈ p.2, l2.name = l.name → ∀ th2,
        l2.high_event_threshold_kw = some th2 → l2.power_kw < th2) →
      (∀ j, j < (statesFrom (SwitchingController.decide c0 pv0 loads0).2 trace).length →
        dlook ((statesFrom (SwitchingController.decide c0 pv0 loads0).2 trace).getD j
          c0).force_grid_until_step l.name =
          some (c0.step_index + 1 + c0.cooldown_steps)) ∧
      (∀ j, j < trace.length → c0.cooldown_steps ≤ (j : ℤ) →
        (((trace.getD j (0, [])).2).map Load.name).Nodup →
        ∀ l2 ∈ (trace.getD j (0, [])).2, l2.name = l.name →
        dlook ((runSteps (SwitchingController.decide c0 pv0 loads0).2 trace).getD j
          ([], c0)).1 l.name =
          some (resolve_free
            ((statesFrom (SwitchingController.decide c0 pv0 loads0).2 trace).getD j
              c0).min_hold_steps
            (dlook ((statesFrom (SwitchingController.decide c0 pv0 loads0).2 trace).getD j
              c0).state l.name)
            ((dlook (allocate_sources_for_step (trace.getD j (0, [])).1
              (trace.getD j (0, [])).2
              ((statesFrom (SwitchingController.decide c0 pv0 loads0).2 trace).getD j
                c0).solar_margin
              ((statesFrom (SwitchingController.decide c0 pv0 loads0).2 trace).getD j
                c0).high_power_solar_factor
              ((statesFrom (SwitchingController.decide c0 pv0 loads0).2 trace).getD j
                c0).high_power_min_kw) l.name).getD Source.GRID)))) := by
  have hhit : ∀ fm, dlook (check_and_update_spikes c0.cooldown_steps (c0.step_index + 1)
      fm loads0) l.name = some (c0.step_index + 1 + c0.cooldown_steps) :=
    spikes_hit c0.cooldown_steps (c0.step_index + 1) loads0 l.name
      ⟨l, hl, rfl, th, hth, hsp⟩
  have ha2 : dlook (SwitchingController.decide c0 pv0 loads0).2.force_grid_until_step
      l.name = some (c0.step_index + 1 + c0.cooldown_steps) := by
    rw [decide_force_eq]
    exact hhit c0.force_grid_until_step
  refine ⟨?_, ha2, ?_, ?_⟩
  · exact decide_forced_grid c0 pv0 loads0 l.name (c0.step_index + 1 + c0.cooldown_steps)
      (hhit c0.force_grid_until_step) (by linarith) ⟨l, hl, rfl⟩
  · intro j hj hwin hmem
    apply run_window_grid c0.cooldown_steps (c0.step_index + 1 + c0.cooldown_steps) l.name
      ([], c0) trace (SwitchingController.decide c0 pv0 loads0).2
      (decide_cooldown c0 pv0 loads0)
      ⟨c0.step_index + 1 + c0.cooldown_steps, ha2, le_refl _⟩ _ j hj _ hmem
    · rw [decide_step_index]
      linarith
    · rw [decide_step_index]
      linarith
  · intro hno
    have hstates : ∀ j, j < (statesFrom (SwitchingController.decide c0 pv0 loads0).2
        trace).length →
        dlook ((statesFrom (SwitchingController.decide c0 pv0 loads0).2 trace).getD j
          c0).force_grid_until_step l.name =
          some (c0.step_index + 1 + c0.cooldown_steps) :=
      run_no_retrigger (c0.step_index + 1 + c0.cooldown_steps) l.name c0 trace
        (SwitchingController.decide c0 pv0 loads0).2 ha2 hno
    refine ⟨hstates, ?_⟩
    intro j hj hcdj hnd l2 hl2 hname
    have hjs : j < (statesFrom (SwitchingController.decide c0 pv0 loads0).2
        trace).length := by
      rw [statesFrom_length]
      omega
    rw [runSteps_getD_eq ([], c0) c0 trace (SwitchingController.decide c0 pv0 loads0).2
      j hj]
    rw [← hname]
    rw [decide_out _ _ _ l2 hnd hl2]
    have hforce_pre := hstates j hjs
    have hno_call : ∀ l3 ∈ (trace.getD j (0, [])).2, l3.name = l.name → ∀ th3,
        l3.high_event_threshold_kw = some th3 → l3.power_kw < th3 := by
      intro l3 h3
      have hptr : trace.getD j (0, []) ∈ trace := by
        rw [List.getD_eq_getElem _ _ hj]
        exact List.getElem_mem hj
      exact hno (trace.getD j (0, [])) hptr l3 h3
    have hspike_pre : dlook (check_and_update_spikes
        ((statesFrom (SwitchingController.decide c0 pv0 loads0).2 trace).getD j
          c0).cooldown_steps
        (((statesFrom (SwitchingController.decide c0 pv0 loads0).2 trace).getD j
          c0).step_index + 1)
        ((statesFrom (SwitchingController.decide c0 pv0 loads0).2 trace).getD j
          c0).force_grid_until_step (trace.getD j (0, [])).2) l2.name =
        some (c0.step_index + 1 + c0.cooldown_steps) := by
      rw [hname]
      rw [spikes_no_retrigger _ _ _ _ hno_call]
      exact hforce_pre
    rw [hspike_pre]
    have hstep := statesFrom_step_index c0 trace
      (SwitchingController.decide c0 pv0 loads0).2 j hjs
    rw [decide_step_index] at hstep
    have hlt : ¬ (((statesFrom (SwitchingController.decide c0 pv0 loads0).2 trace).getD j
        c0).step_index + 1 ≤ c0.step_index + 1 + c0.cooldown_steps) := by
      rw [hstep]
      push_cast
      omega
    rw [resolve_load_some, if_neg hlt]

/-- C4 (amended): if the Allocator's raw suggestion for a load differs from
the source recorded in its DispatchState, the hold count is below
`min_hold_steps`, AND no forcing window is active for that load at this step
(after the spike scan), then `decide` outputs the recorded prior source: the
switch is suppressed. The no-forcing condition is required: an active spike
window overrides hysteresis with GRID (see the counterexample). -/
theorem hysteresis_suppresses_switch (c : SwitchingController) (pv : ℚ)
    (loads : List Load) (l : Load) (hl : l ∈ loads)
    (hnd : (loads.map Load.name).Nodup) (p : Source) (k : ℤ)
    (hst : dlook c.state l.name = some ⟨p, k⟩)
    (hsug : (dlook (allocate_sources_for_step pv loads c.solar_margin
      c.high_power_solar_factor c.high_power_min_kw) l.name).getD Source.GRID ≠ p)
    (hk : k < c.min_hold_steps)
    (hforce : ∀ u, dlook (check_and_update_spikes c.cooldown_steps (c.step_index + 1)
      c.force_grid_until_step loads) l.name = some u → u < c.step_index + 1) :
    dlook (SwitchingController.decide c pv loads).1 l.name = some p := by
  rw [decide_out c pv loads l hnd hl]
  have hfree : resolve_free c.min_hold_steps (dlook c.state l.name)
      ((dlook (allocate_sources_for_step pv loads c.solar_margin
        c.high_power_solar_factor c.high_power_min_kw) l.name).getD Source.GRID) = p := by
    rw [hst]
    show (if p = _ then _ else if c.min_hold_steps ≤ k then _ else p) = p
    rw [if_neg (fun hh => hsug hh.symm), if_neg (not_le.mpr hk)]
  cases hf : dlook (check_and_update_spikes c.cooldown_steps (c.step_index + 1)
      c.force_grid_until_step loads) l.name with
  | none =>
    rw [resolve_load_none, hfree]
  | some u =>
    rw [resolve_load_some, if_neg (not_le.mpr (hforce u hf)), hfree]

/-- C8 (amended): no duplicate-name validation exists; `decide` always
processes the step, assigning every load's name in the output and advancing
the step index, also when two loads share a name (the later write wins in
the returned mapping). -/
theorem duplicate_names_step_processed (c : SwitchingController) (pv : ℚ)
    (loads : List Load) (l : Load) (hl : l ∈ loads) :
    (dlook (SwitchingController.decide c pv loads).1 l.name).isSome ∧
    (SwitchingController.decide c pv loads).2.step_index = c.step_index + 1 := by
  constructor
  · rw [decide_out_eq]
    exact decide_fold_isSome _ _ _ _ loads l.name (([], c.state)) (Or.inl ⟨l, hl, rfl⟩)
  · rfl

/-- C9 (amended): construction performs almost no validation. A Battery is
returned for any capacity (the initial state of charge is only clamped);
SwitchingController construction fails exactly when `step_seconds = 0`
(Python's floor division raises ZeroDivisionError there), and accepts
negative margins and non-positive values everywhere else. -/
theorem construction_validation_behavior :
    (∀ mh ss cs : ℤ, ∀ m f hm : ℚ,
      (mkSwitchingController mh ss cs m f hm).isSome ↔ ss ≠ 0) ∧
    (∀ cap s mc md ec ed : ℚ,
      (mkBattery cap s mc md ec ed).capacity_kwh = cap ∧
      (mkBattery cap s mc md ec ed).soc_kwh = min (max s 0) cap) := by
  constructor
  · intro mh ss cs m f hm
    unfold mkSwitchingController
    by_cases hss : ss = 0
    · simp [hss]
    · simp [hss]
  · intro cap s mc md ec ed
    exact ⟨rfl, rfl⟩

/-! ## Energy-flow reconciliation and nighttime reserve override
(src/simulation/run_daily_sim_with_battery.py; the override also appears in
run_grid_blackout.py) -/

structure StepEnergyReport where
  pv_to_load_kw : ℚ
  pv_to_battery_kw : ℚ
  pv_wasted_kw : ℚ
  battery_charge_kw : ℚ
  battery_discharge_kw : ℚ
  grid_to_load_kw : ℚ
deriving DecidableEq, Repr

/-- Sum of the powers the final allocation places on the inverter (SOLAR) side. -/
def inverter_demand (allocation : List (String × Source)) (loads : List Load) : ℚ :=
  ((loads.filter (fun l =>
    (dlook allocation l.name).getD Source.GRID == Source.SOLAR)).map
    (fun l => l.power_kw)).sum

/-- Sum of the powers the final allocation places on the grid side. -/
def grid_demand (allocation : List (String × Source)) (loads : List Load) : ℚ :=
  ((loads.filter (fun l =>
    !((dlook allocation l.name).getD Source.GRID == Source.SOLAR))).map
    (fun l => l.power_kw)).sum

/-- The per-step energy-flow block of `run_daily_sim_with_battery`
(lines 319-357): PV first serves the inverter side, the battery covers any
deficit, the grid supports the rest; surplus PV charges the battery and the
remainder is wasted. -/
def reconcile_step (b : Battery) (pv_power_kw : ℚ)
    (allocation : List (String × Source)) (loads : List Load) (step_hours : ℚ) :
    StepEnergyReport × Battery :=
  let inverter_side_load_kw := inverter_demand allocation loads
  let grid_side_load_kw := grid_demand allocation loads
  let pv_to_load_kw := min pv_power_kw inverter_side_load_kw
  let remaining_pv_kw := max (pv_power_kw - pv_to_load_kw) 0
  let deficit_kw := max (inverter_side_load_kw - pv_to_load_kw) 0
  let dis := if 0 < deficit_kw then Battery.discharge b deficit_kw step_hours else (0, b)
  let grid_support_kw := if 0 < deficit_kw then max (deficit_kw - dis.1) 0 else 0
  let ch := if 0 < remaining_pv_kw then Battery.charge dis.2 remaining_pv_kw step_hours
    else (0, dis.2)
  let pv_to_battery_kw := if 0 < remaining_pv_kw then ch.1 else 0
  let pv_wasted_kw := if 0 < remaining_pv_kw then max (remaining_pv_kw - ch.1) 0 else 0
  (⟨pv_to_load_kw, pv_to_battery_kw, pv_wasted_kw, ch.1, dis.1,
    grid_side_load_kw + grid_support_kw⟩, ch.2)

/-- The nighttime reserve override applied between allocation and
reconciliation: with zero generation, above-reserve charge forces every
solar-eligible load to SOLAR, otherwise to GRID; grid-only loads are left
untouched. -/
def night_reserve_override (b : Battery) (battery_reserve_ratio pv_power_kw : ℚ)
    (loads : List Load) (allocation : List (String × Source)) :
    List (String × Source) :=
  if pv_power_kw = 0 then
    if battery_reserve_ratio < Battery.soc_ratio b then
      loads.foldl (fun acc l =>
        if l.can_run_on_solar then acc ++ [(l.name, Source.SOLAR)] else acc) allocation
    else
      loads.foldl (fun acc l =>
        if l.can_run_on_solar then acc ++ [(l.name, Source.GRID)] else acc) allocation
  else allocation

theorem charge_fst_nonneg (b : Battery) (a dt : ℚ) (hdt : 0 < dt)
    (hec : 0 < b.eff_charge) (hmc : 0 ≤ b.max_charge_kw)
    (hs1 : b.soc_kwh ≤ b.capacity_kwh) : 0 ≤ (b.charge a dt).1 := by
  unfold Battery.charge
  by_cases h0 : a ≤ 0 ∨ b.capacity_kwh ≤ 0
  · rw [if_pos h0]
  · rw [if_neg h0]
    push_neg at h0
    have hpow : 0 ≤ min a b.max_charge_kw := le_min (le_of_lt h0.1) hmc
    by_cases hroom : b.capacity_kwh - b.soc_kwh < min a b.max_charge_kw * dt * b.eff_charge
    · rw [if_pos hroom]
      dsimp only
      apply div_nonneg (by linarith)
      positivity
    · rw [if_neg hroom]
      dsimp only
      exact hpow

theorem charge_fst_le (b : Battery) (a dt : ℚ) (ha : 0 < a) (hdt : 0 < dt)
    (hec : 0 < b.eff_charge) : (b.charge a dt).1 ≤ a := by
  unfold Battery.charge
  by_cases h0 : a ≤ 0 ∨ b.capacity_kwh ≤ 0
  · rw [if_pos h0]
    exact le_of_lt ha
  · rw [if_neg h0]
    by_cases hroom : b.capacity_kwh - b.soc_kwh < min a b.max_charge_kw * dt * b.eff_charge
    · rw [if_pos hroom]
      dsimp only
      have hde : 0 < dt * b.eff_charge := by positivity
      have h2 : (b.capacity_kwh - b.soc_kwh) / (dt * b.eff_charge) <
          min a b.max_charge_kw := by
        rw [div_lt_iff hde]
        calc b.capacity_kwh - b.soc_kwh < min a b.max_charge_kw * dt * b.eff_charge :=
          hroom
        _ = min a b.max_charge_kw * (dt * b.eff_charge) := by ring
      exact le_of_lt (lt_of_lt_of_le h2 (min_le_left _ _))
    · rw [if_neg hroom]
      dsimp only
      exact min_le_left _ _

theorem discharge_fst_nonneg (b : Battery) (r dt : ℚ) (hdt : 0 < dt)
    (hed : 0 < b.eff_discharge) (hmd : 0 ≤ b.max_discharge_kw)
    (hs0 : 0 ≤ b.soc_kwh) : 0 ≤ (b.discharge r dt).1 := by
  unfold Battery.discharge
  by_cases h0 : r ≤ 0 ∨ b.capacity_kwh ≤ 0
  · rw [if_pos h0]
  · rw [if_neg h0]
    push_neg at h0
    have hpow : 0 ≤ min r b.max_discharge_kw := le_min (le_of_lt h0.1) hmd
    by_cases hsoc : b.soc_kwh < min r b.max_discharge_kw * dt / b.eff_discharge
    · rw [if_pos hsoc]
      dsimp only
      apply div_nonneg _ (le_of_lt hdt)
      exact mul_nonneg hs0 (le_of_lt hed)
    · rw [if_neg hsoc]
      dsimp only
      exact hpow

theorem discharge_fst_le (b : Battery) (r dt : ℚ) (hr : 0 < r) (hdt : 0 < dt)
    (hed : 0 < b.eff_discharge) : (b.discharge r dt).1 ≤ r := by
  unfold Battery.discharge
  by_cases h0 : r ≤ 0 ∨ b.capacity_kwh ≤ 0
  · rw [if_pos h0]
    exact le_of_lt hr
  · rw [if_neg h0]
    by_cases hsoc : b.soc_kwh < min r b.max_discharge_kw * dt / b.eff_discharge
    · rw [if_pos hsoc]
      dsimp only
      have h2 : b.soc_kwh * b.eff_discharge / dt < min r b.max_discharge_kw := by
        rw [div_lt_iff hdt]
        have h3 : b.soc_kwh * b.eff_discharge <
            (min r b.max_discharge_kw * dt / b.eff_discharge) * b.eff_discharge := by
          exact mul_lt_mul_of_pos_right hsoc hed
        calc b.soc_kwh * b.eff_discharge <
            (min r b.max_discharge_kw * dt / b.eff_discharge) * b.eff_discharge := h3
        _ = min r b.max_discharge_kw * dt := by
          field_simp
      exact le_of_lt (lt_of_lt_of_le h2 (min_le_left _ _))
    · rw [if_neg hsoc]
      dsimp only
      exact min_le_left _ _

theorem inverter_demand_nonneg (allocation : List (String × Source)) (loads : List Load)
    (hpw : ∀ l ∈ loads, 0 ≤ l.power_kw) : 0 ≤ inverter_demand allocation loads := by
  apply List.sum_nonneg
  intro x hx
  rcases List.mem_map.mp hx with ⟨l, hl, he⟩
  rw [← he]
  exact hpw l (List.mem_of_mem_filter hl)

theorem grid_demand_nonneg (allocation : List (String × Source)) (loads : List Load)
    (hpw : ∀ l ∈ loads, 0 ≤ l.power_kw) : 0 ≤ grid_demand allocation loads := by
  apply List.sum_nonneg
  intro x hx
  rcases List.mem_map.mp hx with ⟨l, hl, he⟩
  rw [← he]
  exact hpw l (List.mem_of_mem_filter hl)

/-- C5: in the battery-integrated per-step reconciliation, PV first serves the
inverter-side demand (`pv_to_load = min(generation, inverter_demand)`), the
battery covers the deficit and the remainder becomes grid support
(`grid_to_load = grid_demand + (deficit - battery_discharge)`), surplus PV
charges the battery with the remainder wasted
(`pv_wasted = surplus - battery_charge`), and every reported quantity is
non-negative. -/
theorem reconciliation_flows (b : Battery) (pv : ℚ)
    (allocation : List (String × Source)) (loads : List Load) (dt : ℚ)
    (hpv : 0 ≤ pv) (hpw : ∀ l ∈ loads, 0 ≤ l.power_kw) (hdt : 0 < dt)
    (hec0 : 0 < b.eff_charge) (hec1 : b.eff_charge ≤ 1)
    (hed0 : 0 < b.eff_discharge) (hed1 : b.eff_discharge ≤ 1)
    (hmc : 0 ≤ b.max_charge_kw) (hmd : 0 ≤ b.max_discharge_kw)
    (hs0 : 0 ≤ b.soc_kwh) (hs1 : b.soc_kwh ≤ b.capacity_kwh) :
    (reconcile_step b pv allocation loads dt).1.pv_to_load_kw =
      min pv (inverter_demand allocation loads) ∧
    (reconcile_step b pv allocation loads dt).1.grid_to_load_kw =
      grid_demand allocation loads +
        ((inverter_demand allocation loads - min pv (inverter_demand allocation loads)) -
          (reconcile_step b pv allocation loads dt).1.battery_discharge_kw) ∧
    (reconcile_step b pv allocation loads dt).1.pv_wasted_kw =
      (pv - min pv (inverter_demand allocation loads)) -
        (reconcile_step b pv allocation loads dt).1.battery_charge_kw ∧
    0 ≤ (reconcile_step b pv allocation loads dt).1.pv_to_load_kw ∧
    0 ≤ (reconcile_step b pv allocation loads dt).1.pv_to_battery_kw ∧
    0 ≤ (reconcile_step b pv allocation loads dt).1.pv_wasted_kw ∧
    0 ≤ (reconcile_step b pv allocation loads dt).1.battery_charge_kw ∧
    0 ≤ (reconcile_step b pv allocation loads dt).1.battery_discharge_kw ∧
    0 ≤ (reconcile_step b pv allocation loads dt).1.grid_to_load_kw := by
  have hinv0 := inverter_demand_nonneg allocation loads hpw
  have hgrid0 := grid_demand_nonneg allocation loads hpw
  have hminle : min pv (inverter_demand allocation loads) ≤
    inverter_demand allocation loads := min_le_right _ _
  have hminlepv : min pv (inverter_demand allocation loads) ≤ pv := min_le_left _ _
  have hmin0 : 0 ≤ min pv (inverter_demand allocation loads) := le_min hpv hinv0
  have hdef : max (inverter_demand allocation loads -
      min pv (inverter_demand allocation loads)) 0 =
      inverter_demand allocation loads - min pv (inverter_demand allocation loads) :=
    max_eq_left (by linarith)
  have hsur : max (pv - min pv (inverter_demand allocation loads)) 0 =
      pv - min pv (inverter_demand allocation loads) :=
    max_eq_left (by linarith)
  simp only [reconcile_step, hdef, hsur]
  by_cases hA : 0 < inverter_demand allocation loads -
      min pv (inverter_demand allocation loads)
  · have hple : pv ≤ inverter_demand allocation loads := by
      by_contra hc
      push_neg at hc
      rw [min_eq_right (le_of_lt hc)] at hA
      linarith
    have hminpv : min pv (inverter_demand allocation loads) = pv := min_eq_left hple
    have hsur0 : ¬ (0 < pv - min pv (inverter_demand allocation loads)) := by
      rw [hminpv]
      linarith
    have hbd0 : 0 ≤ (b.discharge (inverter_demand allocation loads -
        min pv (inverter_demand allocation loads)) dt).1 :=
      discharge_fst_nonneg b _ dt hdt hed0 hmd hs0
    have hbdle : (b.discharge (inverter_demand allocation loads -
        min pv (inverter_demand allocation loads)) dt).1 ≤
        inverter_demand allocation loads -
          min pv (inverter_demand allocation loads) :=
      discharge_fst_le b _ dt hA hdt hed0
    have hgs : max ((inverter_demand allocation loads -
        min pv (inverter_demand allocation loads)) -
        (b.discharge (inverter_demand allocation loads -
          min pv (inverter_demand allocation loads)) dt).1) 0 =
        (inverter_demand allocation loads -
          min pv (inverter_demand allocation loads)) -
        (b.discharge (inverter_demand allocation loads -
          min pv (inverter_demand allocation loads)) dt).1 :=
      max_eq_left (by linarith)
    simp only [if_pos hA, if_neg hsur0, hgs]
    refine ⟨by trivial, by ring, by rw [hminpv]; ring, hmin0, le_refl 0, le_refl 0,
      le_refl 0, hbd0, by linarith⟩
  · have hdef0 : inverter_demand allocation loads -
        min pv (inverter_demand allocation loads) = 0 :=
      le_antisymm (not_lt.mp hA) (by linarith)
    by_cases hB : 0 < pv - min pv (inverter_demand allocation loads)
    · have hbc0 : 0 ≤ (b.charge (pv - min pv (inverter_demand allocation loads)) dt).1 :=
        charge_fst_nonneg b _ dt hdt hec0 hmc hs1
      have hbcle : (b.charge (pv - min pv (inverter_demand allocation loads)) dt).1 ≤
          pv - min pv (inverter_demand allocation loads) :=
        charge_fst_le b _ dt hB hdt hec0
      have hwa : max ((pv - min pv (inverter_demand allocation loads)) -
          (b.charge (pv - min pv (inverter_demand allocation loads)) dt).1) 0 =
          (pv - min pv (inverter_demand allocation loads)) -
          (b.charge (pv - min pv (inverter_demand allocation loads)) dt).1 :=
        max_eq_left (by linarith)
      simp only [if_neg hA, if_pos hB, hwa]
      refine ⟨by trivial, by rw [hdef0]; ring, by trivial, hmin0, hbc0, by linarith, hbc0,
        le_refl 0, by linarith⟩
    · have hsub0 : pv - min pv (inverter_demand allocation loads) = 0 :=
        le_antisymm (not_lt.mp hB) (by linarith)
      simp only [if_neg hA, if_neg hB]
      refine ⟨by trivial, by rw [hdef0]; ring, by rw [hsub0]; ring, hmin0, le_refl 0,
        le_refl 0, le_refl 0, le_refl 0, by linarith⟩

theorem foldl_override_lookup (v : Source) (loads : List Load) (n : String) :
    ∀ alloc : List (String × Source),
      dlook (loads.foldl (fun acc l =>
        if l.can_run_on_solar then acc ++ [(l.name, v)] else acc) alloc) n =
      if loads.any (fun l => l.can_run_on_solar && l.name == n) then some v
      else dlook alloc n := by
  induction loads with
  | nil => intro alloc; simp
  | cons l ls ih =>
    intro alloc
    rw [List.foldl_cons, ih]
    by_cases hc : l.can_run_on_solar
    · by_cases hn : l.name = n
      · by_cases hany : ls.any (fun l => l.can_run_on_solar && l.name == n)
        · simp [hc, hn, hany]
        · simp only [hany, Bool.false_eq_true, if_false]
          rw [if_pos hc, dlook_append_single, if_pos hn]
          simp [hc, hn]
      · by_cases hany : ls.any (fun l => l.can_run_on_solar && l.name == n)
        · simp [hc, hn, hany]
        · simp only [hany, Bool.false_eq_true, if_false]
          rw [if_pos hc, dlook_append_single, if_neg hn]
          simp [hc, hn, hany]
    · by_cases hany : ls.any (fun l => l.can_run_on_solar && l.name == n)
      · simp [hc, hany]
      · simp only [hany, Bool.false_eq_true, if_false]
        rw [if_neg hc]
        simp [hc, hany]

/-- C6: with zero instantaneous generation, the reserve-protection override
maps every solar-eligible load to SOLAR when the state-of-charge ratio
strictly exceeds the reserve ratio and to GRID otherwise, while every
grid-only load keeps its controller-assigned source. -/
theorem night_reserve_policy (b : Battery) (reserve pv : ℚ) (loads : List Load)
    (alloc : List (String × Source)) (l : Load) (hl : l ∈ loads)
    (hnd : (loads.map Load.name).Nodup) (hpv : pv = 0) :
    (l.can_run_on_solar = true →
      dlook (night_reserve_override b reserve pv loads alloc) l.name =
        some (if reserve < Battery.soc_ratio b then Source.SOLAR else Source.GRID)) ∧
    (l.can_run_on_solar = false →
      dlook (night_reserve_override b reserve pv loads alloc) l.name =
        dlook alloc l.name) := by
  subst hpv
  unfold night_reserve_override
  rw [if_pos rfl]
  have hany_of_can : l.can_run_on_solar = true →
      loads.any (fun l2 => l2.can_run_on_solar && l2.name == l.name) = true := by
    intro hc
    apply List.any_eq_true.mpr
    exact ⟨l, hl, by simp [hc]⟩
  have hany_of_not : l.can_run_on_solar = false →
      loads.any (fun l2 => l2.can_run_on_solar && l2.name == l.name) = false := by
    intro hc
    apply Bool.eq_false_iff.mpr
    intro hany
    rcases List.any_eq_true.mp hany with ⟨l2, hl2, hc2⟩
    simp only [Bool.and_eq_true, beq_iff_eq] at hc2
    have heq : l2 = l := List.inj_on_of_nodup_map hnd hl2 hl hc2.2
    rw [heq] at hc2
    rw [hc2.1] at hc
    exact Bool.true_eq_false.mp hc
  by_cases hr : reserve < Battery.soc_ratio b
  · rw [if_pos hr]
    constructor
    · intro hc
      rw [foldl_override_lookup, if_pos (hany_of_can hc), if_pos hr]
    · intro hc
      rw [foldl_override_lookup]
      rw [hany_of_not hc]
      simp
  · rw [if_neg hr]
    constructor
    · intro hc
      rw [foldl_override_lookup, if_pos (hany_of_can hc), if_neg hr]
    · intro hc
      rw [foldl_override_lookup]
      rw [hany_of_not hc]
      simp

/-- Example controller used by the concrete counterexamples and witnesses:
`mkSwitchingController 3 5 30 0 1 1` (margin 0, factor 1, min-high 1 kW). -/
def cEx : SwitchingController :=
  { min_hold_steps := 3
    step_seconds := 5
    cooldown_seconds := 30
    cooldown_steps := 6
    solar_margin := 0
    high_power_solar_factor := 1
    high_power_min_kw := 1
    state := []
    force_grid_until_step := []
    step_index := 0 }

def loadCalm : Load := ⟨"a", 0, true, false, some 1⟩

def loadSpike : Load := ⟨"a", 2, true, false, some 1⟩

def loadNoTh : Load := ⟨"a", 2, true, false, none⟩

/-- Controller mid-run: load "a" has been on SOLAR for one step. -/
def cH : SwitchingController := { cEx with state := [("a", ⟨Source.SOLAR, 1⟩)] }

def loadA : Load := ⟨"A", 2/10, true, false, none⟩

def loadB : Load := ⟨"B", 9/10, true, true, none⟩

/-- Witness for C2 at the spec's example scenario
(`available = 1, margin = 0.15, factor = 0.6, min = 0.8`). -/
theorem allocator_order_and_greedy_walk_witness :
    allocate_sources_for_step 1 [loadA, loadB] (15/100) (6/10) (8/10) =
      (([loadA, loadB].filter fun l => !l.can_run_on_solar).map
        fun l => (l.name, Source.GRID)) ++
        spec_greedy_walk (6/10) (8/10) (max (1 * (1 - 15/100)) 0)
          (List.insertionSort (loadLe (8/10))
            ([loadA, loadB].filter fun l => l.can_run_on_solar)) :=
  (allocator_order_and_greedy_walk 1 [loadA, loadB] (15/100) (6/10) (8/10)
    (by norm_num)).2.2.2

/-- Witness for C3: after the spike of `loadSpike` at step 1 (threshold 1,
power 2), the next call still reads GRID for "a" although its power dropped. -/
theorem spike_cooldown_forces_grid_witness :
    (1 : ℚ) ≤ loadSpike.power_kw ∧
    dlook ((runSteps (SwitchingController.decide cEx 1 [loadSpike]).2
      [(1, [loadCalm])]).getD 0 ([], cEx)).1 loadSpike.name = some Source.GRID :=
  ⟨by norm_num [loadSpike],
    (spike_cooldown_forces_grid cEx (by decide) 1 [loadSpike] loadSpike
      (List.mem_cons_self _ _) 1 rfl (by norm_num [loadSpike])
      [(1, [loadCalm])]).2.2.1 0 (by decide) (by decide)
      ⟨loadCalm, List.mem_cons_self _ _, rfl⟩⟩

/-- Counterexample for C4 as frozen: at step 2 the raw suggestion (GRID)
differs from the recorded source (SOLAR) and the hold count 1 is below
`min_hold_steps = 3`, yet the output is GRID — the spike detected in the same
step forces it, so the output does NOT equal the prior step's output. -/
theorem hysteresis_claim_counterexample :
    dlook (SwitchingController.decide cEx 1 [loadCalm]).1 "a" = some Source.SOLAR ∧
    dlook (SwitchingController.decide cEx 1 [loadCalm]).2.state "a" =
      some ⟨Source.SOLAR, 1⟩ ∧
    (dlook (allocate_sources_for_step 1 [loadSpike]
      (SwitchingController.decide cEx 1 [loadCalm]).2.solar_margin
      (SwitchingController.decide cEx 1 [loadCalm]).2.high_power_solar_factor
      (SwitchingController.decide cEx 1 [loadCalm]).2.high_power_min_kw) "a").getD
      Source.GRID = Source.GRID ∧
    Source.GRID ≠ Source.SOLAR ∧
    (1 : ℤ) < (SwitchingController.decide cEx 1 [loadCalm]).2.min_hold_steps ∧
    dlook (SwitchingController.decide (SwitchingController.decide cEx 1 [loadCalm]).2 1
      [loadSpike]).1 "a" = some Source.GRID := by
  refine ⟨?_, ?_, ?_, by decide, by decide, ?_⟩ <;>
    norm_num [SwitchingController.decide, check_and_update_spikes,
      allocate_sources_for_step, greedy_walk, effective_high_power, loadLe, keyLe,
      priority_key, List.insertionSort, List.orderedInsert, decide_fold, resolve_load,
      resolve_free, update_state, dlook, cEx, loadCalm, loadSpike, max_def]

/-- Witness for C4 (amended): no forcing, suggestion GRID differs from the
recorded SOLAR, hold 1 < 3 — the switch is suppressed and SOLAR is kept. -/
theorem hysteresis_suppresses_switch_witness :
    dlook (SwitchingController.decide cH 1 [loadNoTh]).1 "a" = some Source.SOLAR :=
  hysteresis_suppresses_switch cH 1 [loadNoTh] loadNoTh (List.mem_cons_self _ _)
    (by decide) Source.SOLAR 1 (by decide)
    (by
      norm_num [allocate_sources_for_step, greedy_walk, effective_high_power, loadLe,
        keyLe, priority_key, List.insertionSort, List.orderedInsert, dlook, cH, cEx,
        loadNoTh, max_def]
      decide)
    (by decide)
    (by intro u h; simp [check_and_update_spikes, dlook, loadNoTh] at h)

/-- Witness for C5 at a concrete step: battery at 1 kWh of 2, one 2 kW load on
SOLAR, 1 kW of generation, a one-hour step. -/
theorem reconciliation_flows_witness :
    (reconcile_step (mkBattery 2 1 1 1 1 1) 1 [("x", Source.SOLAR)]
      [⟨"x", 2, true, false, none⟩] 1).1.pv_to_load_kw =
      min 1 (inverter_demand [("x", Source.SOLAR)] [⟨"x", 2, true, false, none⟩]) :=
  (reconciliation_flows (mkBattery 2 1 1 1 1 1) 1 [("x", Source.SOLAR)]
    [⟨"x", 2, true, false, none⟩] 1 (by decide)
    (by intro l hl; simp only [List.mem_singleton] at hl; subst hl; decide)
    (by decide) (by decide) (by decide) (by decide) (by decide) (by decide) (by decide)
    (by decide) (by decide)).1

/-- Witness for C6: zero generation, state of charge 2 of 2 (ratio 1) above a
0.4 reserve — the solar-eligible load "e" is forced to SOLAR. -/
theorem night_reserve_policy_witness :
    dlook (night_reserve_override (mkBattery 2 2 1 1 1 1) (4/10) 0
      [⟨"e", 1, true, false, none⟩] [("e", Source.GRID)]) "e" =
      some (if (4/10 : ℚ) < Battery.soc_ratio (mkBattery 2 2 1 1 1 1) then Source.SOLAR
        else Source.GRID) ∧
    (if (4/10 : ℚ) < Battery.soc_ratio (mkBattery 2 2 1 1 1 1) then Source.SOLAR
      else Source.GRID) = Source.SOLAR :=
  ⟨(night_reserve_policy (mkBattery 2 2 1 1 1 1) (4/10) 0
      [⟨"e", 1, true, false, none⟩] [("e", Source.GRID)] ⟨"e", 1, true, false, none⟩
      (List.mem_cons_self _ _) (by decide) rfl).1 rfl,
    by norm_num [Battery.soc_ratio, mkBattery, min_def, max_def]⟩

/-- Witness for C7: the spike at step 1 stores window 7; after the re-trigger
at step 2 the stored window is some `v ≥ 7` (in fact 8 — extended). -/
theorem force_window_monotone_witness :
    dlook ((statesFrom cEx [(1, [loadSpike]), (1, [loadSpike])]).getD 1
      cEx).force_grid_until_step "a" = some 7 ∧
    ∃ v, dlook ((statesFrom cEx [(1, [loadSpike]), (1, [loadSpike])]).getD (1 + 1)
      cEx).force_grid_until_step "a" = some v ∧ 7 ≤ v := by
  have h1 : dlook ((statesFrom cEx [(1, [loadSpike]), (1, [loadSpike])]).getD 1
      cEx).force_grid_until_step "a" = some 7 := by
    norm_num [statesFrom, runSteps, SwitchingController.decide, check_and_update_spikes,
      allocate_sources_for_step, greedy_walk, effective_high_power, loadLe, keyLe,
      priority_key, List.insertionSort, List.orderedInsert, decide_fold, resolve_load,
      resolve_free, update_state, dlook, cEx, loadSpike, max_def]
  refine ⟨h1, force_window_monotone cEx rfl [(1, [loadSpike]), (1, [loadSpike])] 1 ?_
    "a" 7 h1⟩
  rw [statesFrom_length]
  norm_num

/-- Counterexample for C8 as frozen: a step whose load list has "a" twice is
processed without any error: the allocator returns an assignment (the later
duplicate overwrote the earlier one), `decide` advances the step index and
updates its state. -/
theorem duplicate_names_processed_counterexample :
    dlook (allocate_sources_for_step 1 [loadCalm, loadSpike] 0 1 1) "a" =
      some Source.GRID ∧
    (SwitchingController.decide cEx 1 [loadCalm, loadSpike]).2.step_index = 1 ∧
    (SwitchingController.decide cEx 1 [loadCalm, loadSpike]).2.state ≠ cEx.state := by
  refine ⟨?_, ?_, ?_⟩
  · norm_num [SwitchingController.decide, check_and_update_spikes,
      allocate_sources_for_step, greedy_walk, effective_high_power, loadLe, keyLe,
      priority_key, List.insertionSort, List.orderedInsert, decide_fold, resolve_load,
      resolve_free, update_state, dlook, cEx, loadCalm, loadSpike, max_def]
  · norm_num [SwitchingController.decide, cEx]
  · norm_num [SwitchingController.decide, check_and_update_spikes,
      allocate_sources_for_step, greedy_walk, effective_high_power, loadLe, keyLe,
      priority_key, List.insertionSort, List.orderedInsert, decide_fold, resolve_load,
      resolve_free, update_state, dlook, cEx, loadCalm, loadSpike, max_def]
    decide

/-- Witness for C8 (amended), applied to a duplicate-name step: the step is
processed regardless. -/
theorem duplicate_names_step_processed_witness :
    (dlook (SwitchingController.decide cEx 1 [loadCalm, loadSpike]).1
      loadCalm.name).isSome ∧
    (SwitchingController.decide cEx 1 [loadCalm, loadSpike]).2.step_index =
      cEx.step_index + 1 :=
  duplicate_names_step_processed cEx 1 [loadCalm, loadSpike] loadCalm
    (List.mem_cons_self _ _)

/-- Counterexample for C9 as frozen: a Battery with capacity -1 is constructed
without any error (its clamped soc is -1 and charging just returns 0), and a
controller with a negative margin is also constructed. -/
theorem invalid_config_constructs_counterexample :
    mkBattery (-1) 0 1 1 (95/100) (95/100) =
      { capacity_kwh := -1, soc_kwh := -1, max_charge_kw := 1, max_discharge_kw := 1,
        eff_charge := 95/100, eff_discharge := 95/100 } ∧
    ((mkBattery (-1) 0 1 1 (95/100) (95/100)).charge 1 1).1 = 0 ∧
    (mkSwitchingController 3 5 30 (-1) (6/10) (8/10)).isSome = true := by
  refine ⟨?_, ?_, ?_⟩
  · norm_num [mkBattery, min_def, max_def]
  · norm_num [mkBattery, Battery.charge, min_def, max_def]
  · norm_num [mkSwitchingController]

/-- Witness for C10 at the spec's example scenario: the SOLAR-assigned powers
sum to at most `1 * (1 - 0.15)`. -/
theorem solar_budget_bound_witness :
    (([loadA, loadB].filter (fun l =>
        dlook (allocate_sources_for_step 1 [loadA, loadB] (15/100) (6/10) (8/10)) l.name
          == some Source.SOLAR)).map (fun l => l.power_kw)).sum ≤
      1 * (1 - 15/100) :=
  solar_budget_bound 1 [loadA, loadB] (15/100) (6/10) (8/10) (by norm_num)
    (by norm_num) (by norm_num) (by norm_num) (by norm_num)
    (by intro l hl
        rcases List.mem_cons.mp hl with h | hl2
        · subst h; norm_num [loadA]
        · rw [List.mem_singleton] at hl2
          subst hl2; norm_num [loadB])
    (by decide)
